import Mathlib

/-!
# Regilo protocol engine: `BaseController` (include/regilo/controller.hpp)

A shallow embedding of `BaseController<Stream>`: the delimiter framer `getLine`,
the round trip `sendCommand`, and the command formatter `createCommand`.

* A `std::string` is the list of its characters; a character is identified with the
  value of its eight-bit pattern. Only equality of characters is ever used.
* A `std::istream` is the unread part of its stream buffer together with its
  `eofbit` and `failbit`.
* A C++ exception is the `error` case of `Except`.
-/

namespace Regilo

/-- A `char`, identified with the value of its eight-bit pattern (0 to 255). -/
abbrev Byte := Nat

/-- The contents of a `std::string`. -/
abbrev Str := List Byte

/-- ASCII text as a `std::string`. -/
def ascii (s : String) : Str := s.toList.map Char.toNat

/-- Error codes carried by `boost::system::system_error`. -/
inductive ErrorCode where
  | bad_descriptor
  | eof
  | connection_reset
deriving DecidableEq, Repr

/-- The exceptions that the modelled code and its libraries can throw. -/
inductive Exception where
  | system_error (ec : ErrorCode)
  | out_of_range
  | bad_alloc
  | length_error
deriving DecidableEq, Repr

deriving instance DecidableEq for Except

/-! ## `std::istream` -/

/-- A `std::istream`: the unread characters of its buffer and its state flags
(`badbit` is never set by the operations used here and is left out). -/
structure IStream where
  buf : Str
  eofbit : Bool
  failbit : Bool
deriving DecidableEq, Repr

/-- The stream test `stream.good()`: no state flag is set. -/
def IStream.good (s : IStream) : Bool := !s.eofbit && !s.failbit

/-- A stream over the given characters with no flag set. -/
def IStream.ofStr (b : Str) : IStream := ⟨b, false, false⟩

/-- The call `stream.get()`. The result `none` stands for `Traits::eof()`. When the stream is
not good the sentry sets `failbit`; when no character is available `eofbit` and
`failbit` are set. -/
def IStream.get (s : IStream) : Option Byte × IStream :=
  if s.good then
    match s.buf with
    | [] => (none, { s with eofbit := true, failbit := true })
    | c :: rest => (some c, { s with buf := rest })
  else (none, { s with failbit := true })

/-- The conversion of `int_type` to `char` in `char ch = stream.get()`:
`Traits::eof()` is -1, whose low eight bits are all set. -/
def charOfInt : Option Byte → Byte
  | some c => c
  | none => 255

/-- The library call `std::getline(stream, line, delim)`. If the stream is not good the sentry
sets `failbit` and `line` is untouched. Otherwise `line` is erased and characters are
moved to it until the delimiter (extracted and dropped) or the end of the buffer
(`eofbit`; also `failbit` when nothing at all was extracted). -/
def stdGetline (s : IStream) (line : Str) (delim : Byte) : IStream × Str :=
  if s.good then
    let content := s.buf.takeWhile (fun c => c != delim)
    match s.buf.dropWhile (fun c => c != delim) with
    | [] => ({ buf := [], eofbit := true, failbit := s.buf.isEmpty }, content)
    | _ :: rest => ({ s with buf := rest }, content)
  else ({ s with failbit := true }, line)

/-! ## `BaseController::getLine` -/

/-- The `while` loop of `getLine` for a delimiter of two or more characters.
The first argument bounds the number of iterations; `getLine` passes a bound that
the loop never reaches (`getLineLoop_fuel`). -/
def getLineLoop (delim : Str) : Nat → IStream → Str → Str → Except Exception (IStream × Str)
  | 0, s, line, _ => .ok (s, line)
  | fuel + 1, s, line, delimPart =>
    if s.failbit then .ok (s, line)
    else
      let r := s.get
      let ch := charOfInt r.1
      match delim[delimPart.length]? with
      | none => .error .out_of_range
      | some d =>
        if ch = d then
          let delimPart := delimPart ++ [ch]
          if delimPart.length = delim.length then .ok (r.2, line)
          else getLineLoop delim fuel r.2 line delimPart
        else
          let flushed : Str × Str :=
            if delimPart ≠ [] then (line ++ delimPart, []) else (line, delimPart)
          getLineLoop delim fuel r.2 (flushed.1 ++ [ch]) flushed.2

/-- The function `BaseController::getLine(stream, line, delim)`. Returns the stream and the
line after the call. -/
def getLine (s : IStream) (line : Str) (delim : Str) : Except Exception (IStream × Str) :=
  match delim with
  | [] => .ok (stdGetline s line 10)
  | [d] => .ok (stdGetline s line d)
  | _ => getLineLoop delim (s.buf.length + 2) s line []

/-! ## The transport and the log -/

/-- Modelled from the spec: the transport, which is the template parameter `Stream` of
`BaseController` (a boost::asio socket or serial port; not part of the sources). It is a
duplex byte stream with an open/closed state. `written` collects every byte the
transport has accepted, `incoming` lists the data the device will deliver, one element
per read, and `writeFaults` scripts the coming writes: `some k` makes a write fail after
`k` bytes, `none` (or an empty script) lets it succeed. -/
structure Stream where
  is_open : Bool
  written : Str
  incoming : List Str
  writeFaults : List (Option Nat)
deriving DecidableEq, Repr

/-- The result of `boost::asio::write`: the error code, if any, the number of bytes
transferred, and the transport afterwards. -/
structure WriteResult where
  ec : Option ErrorCode
  transferred : Nat
  stream : Stream
deriving DecidableEq, Repr

/-- Modelled from the spec: the transport's `write(bytes)`. A transport that is not open
accepts nothing and reports `bad_descriptor`; an open one transfers all the data unless
the script says that this write fails. -/
def Stream.write (t : Stream) (data : Str) : WriteResult :=
  if t.is_open then
    match t.writeFaults with
    | some k :: rest =>
      { ec := some .connection_reset, transferred := min k data.length,
        stream := { t with written := t.written ++ data.take k, writeFaults := rest } }
    | none :: rest =>
      { ec := none, transferred := data.length,
        stream := { t with written := t.written ++ data, writeFaults := rest } }
    | [] =>
      { ec := none, transferred := data.length,
        stream := { t with written := t.written ++ data } }
  else { ec := some .bad_descriptor, transferred := 0, stream := t }

/-- Whether the next `write` on the transport succeeds. -/
def Stream.accepts (t : Stream) : Bool :=
  t.is_open && (t.writeFaults.head?.getD none).isNone

/-- The result of `boost::asio::read_until`: the error code, if any, the stream buffer's
unread data and the data the device has still to deliver. -/
structure ReadResult where
  ec : Option ErrorCode
  buffer : Str
  incoming : List Str
deriving DecidableEq, Repr

/-- Modelled from the spec: the transport's `read-until(delimiter)`. It returns at once when
the buffered data already contain the delimiter; otherwise it moves the next piece of
incoming data into the buffer and looks again. It fails with `bad_descriptor` on a
transport that is not open and with `eof` when the device has nothing more to deliver. -/
def readUntil (delim : Str) (is_open : Bool) : List Str → Str → ReadResult
  | [], buffer =>
    if delim <:+: buffer then ⟨none, buffer, []⟩
    else ⟨some (if is_open then .eof else .bad_descriptor), buffer, []⟩
  | chunk :: rest, buffer =>
    if delim <:+: buffer then ⟨none, buffer, chunk :: rest⟩
    else if is_open then readUntil delim is_open rest (buffer ++ chunk)
    else ⟨some .bad_descriptor, buffer, chunk :: rest⟩

/-- Modelled from the spec: `BasicLog` (log.hpp is not among the sources). A Log is the
ordered sequence of its transcript entries, each a (request, response) pair. -/
structure BasicLog where
  entries : List (Str × Str)
deriving DecidableEq, Repr

/-- Modelled from the spec: `BasicLog::write(input, output)` appends the pair as a new
transcript entry. -/
def BasicLog.write (l : BasicLog) (input output : Str) : BasicLog :=
  { entries := l.entries ++ [(input, output)] }

/-! ## `BaseController` -/

/-- The state of a `BaseController<Stream>`. `istream` is the `std::istream` over
`istreamBuffer`; `ostreamBuffer` is the data put into `ostream` and not yet written;
`deviceOutput` and `deviceInput` are the contents of the two string streams; `log` is
`none` for `nullptr`. -/
structure BaseController where
  istream : IStream
  ostreamBuffer : Str
  deviceOutput : Str
  deviceInput : Str
  stream : Stream
  log : Option BasicLog
  REQUEST_END : Str
  RESPONSE_END : Str
  readResponse : Bool
deriving DecidableEq, Repr

/-- The constructor `BaseController()` on a given (not yet connected or otherwise) transport. -/
def BaseController.new (t : Stream) : BaseController :=
  { istream := IStream.ofStr [], ostreamBuffer := [], deviceOutput := [], deviceInput := [],
    stream := t, log := none, REQUEST_END := [10], RESPONSE_END := [10],
    readResponse := true }

/-- The method `isConnected()`. -/
def BaseController.isConnected (c : BaseController) : Bool := c.stream.is_open

/-- The call `s.substr(0, a - b)` with `a`, `b` of type `std::size_t` (64 bits): the
difference wraps around, and `substr` clamps the count to the length of `s`. -/
def substr0 (s : Str) (a b : Nat) : Str := s.take ((a + 2 ^ 64 - b % 2 ^ 64) % 2 ^ 64)

/-- The statement `if(log != nullptr) log->write(input, output);`. -/
def writeLog (log : Option BasicLog) (input output : Str) : Option BasicLog :=
  match log with
  | some l => some (l.write input output)
  | none => none

/-- The protected overload `sendCommand()`: sends what `deviceInput` holds. Returns the
response, or the exception thrown, and the controller afterwards. -/
def BaseController.sendCommandInternal (c : BaseController) :
    Except Exception Str × BaseController :=
  let c := { c with deviceInput := c.deviceInput ++ c.REQUEST_END }
  let input := c.deviceInput
  let c := { c with ostreamBuffer := c.ostreamBuffer ++ input }
  let w := c.stream.write c.ostreamBuffer
  let c := { c with stream := w.stream, ostreamBuffer := c.ostreamBuffer.drop w.transferred }
  match w.ec with
  | some ec => (.error (.system_error ec), c)
  | none =>
    let c := { c with deviceInput := [] }
    if c.readResponse then
      let r := readUntil c.RESPONSE_END c.stream.is_open c.stream.incoming c.istream.buf
      let c := { c with stream := { c.stream with incoming := r.incoming },
                        istream := { c.istream with buf := r.buffer } }
      match r.ec with
      | some ec => (.error (.system_error ec), c)
      | none =>
        match getLine c.istream [] c.REQUEST_END with
        | .error e => (.error e, c)
        | .ok (is1, cmdInput) =>
          let _cmdInput := substr0 cmdInput cmdInput.length c.REQUEST_END.length
          match getLine is1 [] c.RESPONSE_END with
          | .error e => (.error e, { c with istream := is1 })
          | .ok (is2, output) =>
            let c := { c with istream := is2, deviceOutput := output }
            (.ok output, { c with log := writeLog c.log input output })
    else
      (.ok [], { c with log := writeLog c.log input [] })

/-- The public overload `sendCommand(command)`. -/
def BaseController.sendCommand (c : BaseController) (command : Str) :
    Except Exception Str × BaseController :=
  BaseController.sendCommandInternal { c with deviceInput := c.deviceInput ++ command }

/-! ## `BaseController::createCommand` -/

/-- What a call can come to: a value or an exception. -/
inductive Outcome (α : Type) where
  | value (a : α)
  | throws (e : Exception)
deriving DecidableEq, Repr

/-- The largest `int` (32 bits). -/
def INT_MAX : Int := 2 ^ 31 - 1

/-- The largest `std::ptrdiff_t` (64 bits), the limit on the size of an array. -/
def PTRDIFF_MAX : Nat := 2 ^ 63 - 1

/-- The value of `std::string::max_size()` (here that of libstdc++; the results below are the
same for every value from `INT_MAX` up to `2 ^ 64 - 2`). -/
def STRING_MAX_SIZE : Nat := 2 ^ 62 - 1

/-- The sum of two `int`s as the compiled code computes it: a sum out of range (which the
language leaves undefined) wraps around. -/
def intAdd (a b : Int) : Int := (a + b + 2 ^ 31) % 2 ^ 32 - 2 ^ 31

/-- The conversion of an `int` to `std::size_t` (64 bits). -/
def sizeOfInt (i : Int) : Nat := (i % 2 ^ 64).toNat

/-- The C string that `command.c_str()` points to: the characters before the first NUL. -/
def c_str (command : Str) : Str := command.takeWhile (fun c => c != 0)

/-- The formatting done by the C library's `snprintf` (not part of the sources), taken as a
parameter: `count fmt args` is the value `snprintf` returns for the format `fmt` and the
arguments `args`, an `int` that is negative when it fails, and `text fmt args` is the
printf-style expansion, whose length a successful call returns. -/
structure Formatting (Args : Type) where
  count : Str → Args → Int
  text : Str → Args → Str
  count_eq : ∀ fmt args, 0 ≤ count fmt args → count fmt args = (text fmt args).length
  count_le : ∀ fmt args, count fmt args ≤ INT_MAX
  count_ge : ∀ fmt args, -INT_MAX - 1 ≤ count fmt args

/-- The buffer after `snprintf(buffer, size, fmt, args)`: nothing is written when `size` is
zero or the formatting fails; otherwise at most `size - 1` characters of the expansion
and a terminating NUL are written. -/
def Formatting.snprintf {Args : Type} (F : Formatting Args) (buffer : Str) (size : Nat)
    (fmt : Str) (args : Args) : Str :=
  if size = 0 ∨ F.count fmt args < 0 then buffer
  else
    let k := min (F.text fmt args).length (size - 1)
    (F.text fmt args).take k ++ [0] ++ buffer.drop (k + 1)

/-- The method `createCommand(command, params...)`, as the compiled code runs it. The size
is the sum of two `int`s converted to `std::size_t`. `heap` gives the indeterminate
contents of the storage that `new char[size]` returns; `new` throws `std::bad_alloc`
(or `std::bad_array_new_length`, which derives from it) for a size beyond
`PTRDIFF_MAX`. The result is built from the range from `buffer` to
`buffer + size - 1`, whose length is `size - 1` as a `std::size_t`; the range
constructor of `std::string` throws `std::length_error` for a length beyond
`max_size()`, which is what happens for `size = 0`. -/
def createCommand {Args : Type} (F : Formatting Args) (heap : Nat → Byte) (command : Str)
    (params : Args) : Outcome Str :=
  let n := F.count (c_str command) params
  let size := sizeOfInt (intAdd n 1)
  if PTRDIFF_MAX < size then .throws .bad_alloc
  else
    let buffer := (List.range size).map heap
    let buffer := F.snprintf buffer size (c_str command) params
    let length := (size + 2 ^ 64 - 1) % 2 ^ 64
    if STRING_MAX_SIZE < length then .throws .length_error
    else .value (buffer.take length)

/-- The method `createCommandAndSend(command, params...)`: `sendCommand` runs only when
`createCommand` has returned a command. -/
def BaseController.createCommandAndSend {Args : Type} (c : BaseController)
    (F : Formatting Args) (heap : Nat → Byte) (command : Str) (params : Args) :
    Outcome Str × BaseController :=
  match createCommand F heap command params with
  | .value cmd =>
    match c.sendCommand cmd with
    | (.ok output, c') => (.value output, c')
    | (.error e, c') => (.throws e, c')
  | .throws e => (.throws e, c)

/-! ### A formatting for `%d` and `%%` -/

/-- The decimal digits of a natural number (the first argument bounds the number of digits). -/
def decimalDigits : Nat → Nat → Str
  | 0, _ => []
  | fuel + 1, n => if n < 10 then [48 + n] else decimalDigits fuel (n / 10) ++ [48 + n % 10]

/-- The conversion `%d` of an `int`. -/
def decimal : Int → Str
  | .ofNat n => decimalDigits (n + 1) n
  | .negSucc n => 45 :: decimalDigits (n + 2) (n + 1)

/-- The printf-style expansion of a format that uses only `%d` and `%%`, with `int`
arguments; `none` for any other conversion and for a missing argument. -/
def expandInts : Str → List Int → Option Str
  | [], _ => some []
  | 37 :: 100 :: fmt, a :: args => (expandInts fmt args).map (fun t => decimal a ++ t)
  | 37 :: 37 :: fmt, args => (expandInts fmt args).map (fun t => 37 :: t)
  | 37 :: _, _ => none
  | c :: fmt, args => (expandInts fmt args).map (fun t => c :: t)

/-! ## `BaseController::setLog` and `getLog` -/

/-- Modelled from the spec: a `std::shared_ptr<Log>` (log.hpp is not among the sources). `Log` is
the abstract transcript and `BasicLog` its file-backed implementation. A handle is null,
or refers to a `BasicLog` (or to an object of a class derived from it), or refers to an
object of some other implementation of `Log`; it is identified with the object it
refers to. -/
inductive LogHandle where
  | null
  | basic (l : BasicLog)
  | other (id : Nat)
deriving DecidableEq, Repr

/-- The cast `std::dynamic_pointer_cast<BasicLog>(log)`: a handle that does not refer to a
`BasicLog` becomes null. -/
def dynamic_pointer_cast : LogHandle → Option BasicLog
  | .null => none
  | .basic l => some l
  | .other _ => none

/-- The method `setLog(log)`: the handle is cast to `BasicLog` and swapped into `this->log` (the
previous log leaves with the local variable). -/
def BaseController.setLog (c : BaseController) (log : LogHandle) : BaseController :=
  let basicLog := dynamic_pointer_cast log
  { c with log := basicLog }

/-- The method `getLog()`: `this->log`, converted to a `std::shared_ptr<Log>`. -/
def BaseController.getLog (c : BaseController) : LogHandle :=
  match c.log with
  | some l => .basic l
  | none => .null

/-! ## Predicates and instances used in the statements -/

/-- Whether a proper non-empty prefix of the delimiter is also a suffix of it. -/
def selfOverlapping (d : Str) : Bool :=
  (List.range d.length).any fun k => decide (0 < k) && (d.take k == d.drop (d.length - k))

/-- A new controller with a Log attached, on a transport that has not been opened. -/
def unconnected : BaseController :=
  { BaseController.new ⟨false, [], [], []⟩ with log := some ⟨[]⟩ }

/-- A new controller with a Log attached and a carriage return for `RESPONSE_END`,
connected to a device that answers `ok` and a carriage return without echoing the
command, and then closes. -/
def noEcho : BaseController :=
  { BaseController.new ⟨true, [], [ascii "ok\r"], []⟩ with
    RESPONSE_END := ascii "\r", log := some ⟨[]⟩ }

/-- The controllers all of whose `sendCommand` calls so far have completed: a new
controller; such a controller after a further call that returned; and such a
controller after anything else that leaves the two request buffers alone
(connecting, data arriving, a new Log, new delimiters). -/
inductive Completed : BaseController → Prop where
  | new (t : Stream) : Completed (BaseController.new t)
  | sendCommand (c : BaseController) (command output : Str) (c' : BaseController) :
      Completed c → c.sendCommand command = (.ok output, c') → Completed c'
  | other (c c' : BaseController) :
      Completed c → c'.deviceInput = c.deviceInput → c'.ostreamBuffer = c.ostreamBuffer →
      Completed c'

/-- A connected controller that sends without reading responses. -/
def fireAndForget : BaseController :=
  { BaseController.new ⟨true, [], [], []⟩ with readResponse := false }

/-- A connected controller with a carriage return for `RESPONSE_END`; the device answers the
command `a`, newline, `b` with its echo, a newline, the payload `P` and a
carriage return. -/
def echoing : BaseController :=
  { BaseController.new ⟨true, [], [ascii "a\nb\nP\r"], []⟩ with RESPONSE_END := ascii "\r" }

/-- A connected controller with `ab` for `REQUEST_END` and a carriage return for
`RESPONSE_END`; the device answers the command `a` with its echo, `REQUEST_END`, the
payload `P` and `RESPONSE_END`. -/
def echoingTwoChar : BaseController :=
  { BaseController.new ⟨true, [], [ascii "aabP\r"], []⟩ with
    REQUEST_END := ascii "ab", RESPONSE_END := ascii "\r" }

/-- The controller `unconnected` after a `sendCommand` call that failed for want of a
connection and a `connect` that succeeded; the device will answer the command
`GetVersion` with its echo and the payload `1.0`, each followed by a newline. -/
def reconnected : BaseController :=
  { (unconnected.sendCommand (ascii "GetVersion")).2 with
    stream := ⟨true, [], [ascii "GetVersion\n1.0\n"], []⟩ }

/-- A connected controller with a carriage return for `RESPONSE_END`; the device answers
with the echo `GetVersion`, a newline, the payload `1.0` and a carriage return. -/
def answering : BaseController :=
  { BaseController.new ⟨true, [], [ascii "GetVersion\n1.0\r"], []⟩ with
    RESPONSE_END := ascii "\r" }

/-- The formatting of `%d` and `%%` with `int` arguments as `snprintf` reports it: the length
of the expansion, or -1 when there is none or it is longer than `INT_MAX`. -/
def intFormatting : Formatting (List Int) where
  count fmt args :=
    match expandInts fmt args with
    | some t => if (t.length : Int) ≤ INT_MAX then (t.length : Int) else -1
    | none => -1
  text fmt args := (expandInts fmt args).getD []
  count_eq := by
    intro fmt args h
    cases hx : expandInts fmt args with
    | none => simp [hx] at h
    | some t =>
      simp only [hx] at h ⊢
      split_ifs at h ⊢ with hle
      · simp
      · simp at h
  count_le := by
    intro fmt args
    cases hx : expandInts fmt args with
    | none => simp [hx, INT_MAX]
    | some t =>
      simp only [hx]
      split_ifs with hle
      · exact hle
      · simp [INT_MAX]
  count_ge := by
    intro fmt args
    cases hx : expandInts fmt args with
    | none => simp [hx, INT_MAX]
    | some t =>
      simp only [hx, INT_MAX]
      split_ifs with hle
      · omega
      · omega

/-- A formatting whose expansion for the argument `n` is `n` spaces: blank padding to a
total width of `n`. -/
def spaces : Formatting Nat where
  count _ n := if (n : Int) ≤ INT_MAX then (n : Int) else -1
  text _ n := List.replicate n 32
  count_eq := by
    intro fmt n h
    dsimp only at h ⊢
    split_ifs at h ⊢ with hle
    · simp
    · simp at h
  count_le := by
    intro fmt n
    dsimp only
    split_ifs with hle
    · exact hle
    · simp [INT_MAX]
  count_ge := by
    intro fmt n
    simp only [INT_MAX]
    split_ifs with hle
    · omega
    · omega

/-- A new controller with a Log attached, connected to a device that will answer the command
`GetVersion` with its echo and the payload `1.0`, each followed by a newline; the
transport breaks the next write after three bytes. -/
def flaky : BaseController :=
  { BaseController.new ⟨true, [], [ascii "GetVersion\n1.0\n"], [some 3]⟩ with
    log := some ⟨[]⟩ }

/-- The controller `unconnected` after a call `sendCommand("SetMotor 1")` that failed for want
of a connection and a `connect` that succeeded; the device will answer the command
`GetVersion` with its echo and the payload `1.0`, each followed by a newline. -/
def connectedLater : BaseController :=
  { (unconnected.sendCommand (ascii "SetMotor 1")).2 with
    stream := ⟨true, [], [ascii "GetVersion\n1.0\n"], []⟩ }

/-- A controller with a Log attached that reads no responses, after a call
`sendCommand("SetMotor 1")` that failed for want of a connection and a `connect` that
succeeded. -/
def fireAndForgetLater : BaseController :=
  { ({ unconnected with readResponse := false }.sendCommand (ascii "SetMotor 1")).2 with
    stream := ⟨true, [], [], []⟩ }

/-- The candidate `delimPart` that the scan of `getLine` holds once it has scanned the
characters `p`, starting with the candidate `part`; `none` when the scan has completed
a match on the way. With a one-character delimiter the value for an empty `part` is
`some []` exactly when the character does not occur in `p`. -/
def pendingMatch (delim : Str) : Str → Str → Option Str
  | part, [] => some part
  | part, c :: p =>
    if delim[part.length]? = some c then
      if part.length + 1 = delim.length then none else pendingMatch delim (part ++ [c]) p
    else pendingMatch delim [] p

/-- A connected controller with `aa` for `RESPONSE_END`; the device answers the command `x`
with its echo, a newline, the payload `a` and `RESPONSE_END`. -/
def overlappingEnd : BaseController :=
  { BaseController.new ⟨true, [], [ascii "x\naaa"], []⟩ with RESPONSE_END := ascii "aa" }

/-- A connected controller with carriage return and newline for `REQUEST_END` and a newline
for `RESPONSE_END`; the device answers with the echo `GetVersion`, `REQUEST_END`, the
payload `1.0` and `RESPONSE_END`, delivered in two pieces. -/
def twoReads : BaseController :=
  { BaseController.new ⟨true, [], [ascii "GetVersion\r\n", ascii "1.0\n"], []⟩ with
    REQUEST_END := ascii "\r\n", RESPONSE_END := ascii "\n" }

/-- The controller `noEcho` after its call `sendCommand("GetVersion")`, which ran the input
stream into its end; the device then answers with the echo `GetVersion`, a newline,
the payload `1.0` and a carriage return. -/
def exhaustedBefore : BaseController :=
  { (noEcho.sendCommand (ascii "GetVersion")).2 with
    stream := ⟨true, [], [ascii "GetVersion\n1.0\r"], []⟩ }

/-- A connected controller with a newline for `REQUEST_END` and carriage return and newline
for `RESPONSE_END`; the device answers with the echo `GetVersion`, a newline, the
payload `a`, carriage return, `b` and `RESPONSE_END`, delivered in three pieces. -/
def threeReads : BaseController :=
  { BaseController.new ⟨true, [], [ascii "GetVer", ascii "sion\na\r", ascii "b\r\n"], []⟩ with
    RESPONSE_END := ascii "\r\n" }

/-! # Theorems -/

/-! ## The scan of `getLine` -/

/-- Once `failbit` is set the loop condition `while(stream)` fails. -/
theorem getLineLoop_failed (delim : Str) (fuel : Nat) (s : IStream) (line part : Str)
    (h : s.failbit = true) : getLineLoop delim fuel s line part = .ok (s, line) := by
  cases fuel <;> simp [getLineLoop, h]

/-- One iteration of the loop on a stream whose `failbit` is clear, for a candidate `part`
that is shorter than the delimiter. -/
theorem getLineLoop_step (delim : Str) (fuel : Nat) (s : IStream) (line part : Str)
    (h : s.failbit = false) (hlen : part.length < delim.length) :
    getLineLoop delim (fuel + 1) s line part =
      if charOfInt s.get.1 = delim[part.length] then
        if part.length + 1 = delim.length then .ok (s.get.2, line)
        else getLineLoop delim fuel s.get.2 line (part ++ [charOfInt s.get.1])
      else getLineLoop delim fuel s.get.2 (line ++ part ++ [charOfInt s.get.1]) [] := by
  rw [getLineLoop]
  simp only [h, Bool.false_eq_true, if_false, List.getElem?_eq_getElem hlen,
    List.length_append, List.length_singleton]
  by_cases hp : part = []
  · subst hp; simp
  · simp [hp]

/-- Reading a character from a good stream. -/
theorem get_cons (c : Byte) (rest : Str) :
    IStream.get ⟨c :: rest, false, false⟩ = (some c, ⟨rest, false, false⟩) := by
  simp [IStream.get, IStream.good]

/-- Reading from a good stream with nothing left. -/
theorem get_nil : IStream.get ⟨[], false, false⟩ = (none, ⟨[], true, true⟩) := by
  simp [IStream.get, IStream.good]

/-- Reading from a stream that is not good sets `failbit`. -/
theorem get_not_good (s : IStream) (h : s.good = false) :
    s.get = (none, { s with failbit := true }) := by
  simp [IStream.get, h]

/-- After `get`, the stream has lost a character or has `failbit` set. -/
theorem get_progress (s : IStream) :
    s.get.2.failbit = true ∨ (s.get.2.buf.length + 1 = s.buf.length ∧ s.get.2.good = true
      ∧ s.good = true) := by
  by_cases hg : s.good = true
  · obtain ⟨b, e, f⟩ := s
    simp only [IStream.good, Bool.and_eq_true, Bool.not_eq_true'] at hg
    obtain ⟨he, hf⟩ := hg
    subst he hf
    cases b with
    | nil => left; simp [IStream.get, IStream.good]
    | cons c rest => right; simp [IStream.get, IStream.good]
  · left
    simp only [Bool.not_eq_true] at hg
    rw [get_not_good s hg]

/-- The bound that `getLine` passes is never reached: any two bounds of at least the
number of unread characters plus two give the same result. -/
theorem getLineLoop_fuel (delim : Str) :
    ∀ (n : Nat) (s : IStream) (line part : Str) (fuel₁ fuel₂ : Nat),
      s.buf.length = n → n + 2 ≤ fuel₁ → n + 2 ≤ fuel₂ →
      getLineLoop delim fuel₁ s line part = getLineLoop delim fuel₂ s line part := by
  intro n
  induction n with
  | zero =>
    intro s line part fuel₁ fuel₂ hn h₁ h₂
    obtain ⟨f₁, rfl⟩ : ∃ k, fuel₁ = k + 1 := ⟨fuel₁ - 1, by omega⟩
    obtain ⟨f₂, rfl⟩ : ∃ k, fuel₂ = k + 1 := ⟨fuel₂ - 1, by omega⟩
    by_cases hf : s.failbit = true
    · rw [getLineLoop_failed _ _ _ _ _ hf, getLineLoop_failed _ _ _ _ _ hf]
    · simp only [Bool.not_eq_true] at hf
      have hfail : s.get.2.failbit = true := by
        rcases get_progress s with h | ⟨h, _, _⟩
        · exact h
        · omega
      rw [getLineLoop, getLineLoop]
      simp only [hf, Bool.false_eq_true, if_false, getLineLoop_failed _ _ _ _ _ hfail]
  | succ n ih =>
    intro s line part fuel₁ fuel₂ hn h₁ h₂
    obtain ⟨f₁, rfl⟩ : ∃ k, fuel₁ = k + 1 := ⟨fuel₁ - 1, by omega⟩
    obtain ⟨f₂, rfl⟩ : ∃ k, fuel₂ = k + 1 := ⟨fuel₂ - 1, by omega⟩
    by_cases hf : s.failbit = true
    · rw [getLineLoop_failed _ _ _ _ _ hf, getLineLoop_failed _ _ _ _ _ hf]
    · simp only [Bool.not_eq_true] at hf
      rw [getLineLoop, getLineLoop]
      simp only [hf, Bool.false_eq_true, if_false]
      rcases get_progress s with h | ⟨h, _, _⟩
      · simp only [getLineLoop_failed _ _ _ _ _ h]
      · have e : ∀ (l p : Str), getLineLoop delim f₁ s.get.2 l p
            = getLineLoop delim f₂ s.get.2 l p :=
          fun l p => ih s.get.2 l p f₁ f₂ (by omega) (by omega) (by omega)
        simp only [e]

/-- The loop never throws: the candidate stays shorter than the delimiter, so `delim.at`
is always within range. -/
theorem getLineLoop_returns (delim : Str) :
    ∀ (fuel : Nat) (s : IStream) (line part : Str), part.length < delim.length →
      ∃ r, getLineLoop delim fuel s line part = .ok r := by
  intro fuel
  induction fuel with
  | zero => intro s line part _; exact ⟨_, rfl⟩
  | succ fuel ih =>
    intro s line part hlen
    by_cases hf : s.failbit = true
    · exact ⟨_, getLineLoop_failed _ _ _ _ _ hf⟩
    · simp only [Bool.not_eq_true] at hf
      rw [getLineLoop_step _ _ _ _ _ hf hlen]
      split_ifs with h₁ h₂
      · exact ⟨_, rfl⟩
      · exact ih _ _ _ (by simp; omega)
      · exact ih _ _ _ (by simp only [List.length_nil]; omega)

/-- The function `getLine` never throws: with every stream, line and delimiter it returns. -/
theorem getLine_returns (s : IStream) (line delim : Str) :
    ∃ r, getLine s line delim = .ok r := by
  match delim with
  | [] => exact ⟨_, rfl⟩
  | [d] => exact ⟨_, rfl⟩
  | d₁ :: d₂ :: dt => exact getLineLoop_returns _ _ _ _ _ (by simp)

/-- A proper prefix of the delimiter, extended by the delimiter's next character, is
again a prefix of it. -/
theorem prefix_snoc (delim part : Str) (hpre : part <+: delim)
    (hlen : part.length < delim.length) :
    ∃ t, delim = part ++ delim[part.length] :: t := by
  obtain ⟨t, rfl⟩ := hpre
  cases t with
  | nil => simp at hlen
  | cons x t => exact ⟨t, by rw [List.getElem_of_append rfl rfl]⟩

/-- The matching phase: when the stream continues with the rest of the delimiter, the
loop consumes it and stops there. -/
theorem getLineLoop_match (r : Str) :
    ∀ (suf pre line : Str) (fuel : Nat), suf ≠ [] → suf.length ≤ fuel →
      getLineLoop (pre ++ suf) fuel ⟨suf ++ r, false, false⟩ line pre
        = .ok (⟨r, false, false⟩, line) := by
  intro suf
  induction suf with
  | nil => intro pre line fuel h; exact absurd rfl h
  | cons c suf ih =>
    intro pre line fuel _ hfuel
    obtain ⟨f, rfl⟩ : ∃ k, fuel = k + 1 := ⟨fuel - 1, by simp at hfuel; omega⟩
    rw [getLineLoop_step _ _ _ _ _ rfl (by simp)]
    simp only [List.cons_append, get_cons, charOfInt, List.length_append, List.length_cons]
    have hb : pre.length < (pre ++ c :: suf).length := by simp
    have hc' : (pre ++ c :: suf)[pre.length] = c := List.getElem_of_append rfl rfl
    rw [if_pos hc'.symm]
    cases suf with
    | nil => simp
    | cons c₂ suf₂ =>
      rw [if_neg (by simp)]
      have := ih (pre ++ [c]) line f (by simp) (by simp at hfuel ⊢; omega)
      simpa using this

/-- The scan is exact when the first character of the delimiter does not occur before
the delimiter: the loop appends the characters before it to the line and stops just
after it. -/
theorem getLineLoop_exact (d₀ : Byte) (dtail r : Str) :
    ∀ (p line : Str) (fuel : Nat), d₀ ∉ p → p.length + (dtail.length + 1) ≤ fuel →
      getLineLoop (d₀ :: dtail) fuel ⟨p ++ d₀ :: dtail ++ r, false, false⟩ line []
        = .ok (⟨r, false, false⟩, line ++ p) := by
  intro p
  induction p with
  | nil =>
    intro line fuel _ hfuel
    have := getLineLoop_match r (d₀ :: dtail) [] line fuel (by simp) (by simpa using hfuel)
    simpa using this
  | cons c p ih =>
    intro line fuel hc hfuel
    obtain ⟨f, rfl⟩ : ∃ k, fuel = k + 1 := ⟨fuel - 1, by simp at hfuel; omega⟩
    rw [getLineLoop_step _ _ _ _ _ rfl (by simp)]
    simp only [List.cons_append, get_cons, charOfInt, List.length_nil,
      List.getElem_cons_zero]
    have hne : c ≠ d₀ := fun h => hc (by simp [h])
    rw [if_neg hne]
    have := ih (line ++ [c]) f (fun h => hc (by simp [h])) (by simp at hfuel ⊢; omega)
    simpa using this

/-- What the loop comes to on a good stream, for a candidate `part` that is a proper prefix
of the delimiter. Either it stops on a completed match: then the characters consumed,
preceded by the candidate, are the characters added to the line followed by the
delimiter. Or the stream is exhausted: then it returns all the same, with `eofbit` and
`failbit` set and a line that extends the one it was given. -/
theorem getLineLoop_spec (delim : Str) :
    ∀ (b : Str) (fuel : Nat) (line part : Str), b.length + 2 ≤ fuel → part <+: delim →
      part.length < delim.length →
      (∃ consumed rest added, b = consumed ++ rest ∧ part ++ consumed = added ++ delim ∧
        getLineLoop delim fuel ⟨b, false, false⟩ line part
          = .ok (⟨rest, false, false⟩, line ++ added))
      ∨ (∃ line', line <+: line' ∧
        getLineLoop delim fuel ⟨b, false, false⟩ line part = .ok (⟨[], true, true⟩, line')) := by
  intro b
  induction b with
  | nil =>
    intro fuel line part hfuel hpre hlen
    obtain ⟨f, rfl⟩ : ∃ k, fuel = k + 1 := ⟨fuel - 1, by simp at hfuel; omega⟩
    right
    rw [getLineLoop_step _ _ _ _ _ rfl hlen, get_nil]
    simp only [getLineLoop_failed _ _ ⟨[], true, true⟩ _ _ rfl]
    split_ifs
    · exact ⟨line, List.prefix_refl _, rfl⟩
    · exact ⟨line, List.prefix_refl _, rfl⟩
    · exact ⟨_, ⟨part ++ [charOfInt none], by simp⟩, rfl⟩
  | cons c rest ih =>
    intro fuel line part hfuel hpre hlen
    obtain ⟨f, rfl⟩ : ∃ k, fuel = k + 1 := ⟨fuel - 1, by simp at hfuel; omega⟩
    have hf : rest.length + 2 ≤ f := by simp at hfuel; omega
    rw [getLineLoop_step _ _ _ _ _ rfl hlen, get_cons]
    simp only [charOfInt]
    obtain ⟨t, ht⟩ := prefix_snoc delim part hpre hlen
    by_cases hc : c = delim[part.length]
    · rw [if_pos hc]
      by_cases hdone : part.length + 1 = delim.length
      · rw [if_pos hdone]
        left
        refine ⟨[c], rest, [], by simp, ?_, by simp⟩
        have hlen' := congrArg List.length ht
        simp only [List.length_append, List.length_cons] at hlen'
        have : t = [] := List.eq_nil_of_length_eq_zero (by omega)
        subst this
        rw [hc]; simpa using ht.symm
      · rw [if_neg hdone]
        have hpre' : part ++ [c] <+: delim := ⟨t, by rw [hc]; simpa using ht.symm⟩
        have hlen' : (part ++ [c]).length < delim.length := by simp; omega
        rcases ih f line (part ++ [c]) hf hpre' hlen' with
          ⟨consumed, rest', added, h₁, h₂, h₃⟩ | ⟨line', h₁, h₂⟩
        · left
          exact ⟨c :: consumed, rest', added, by simp [h₁], by simpa using h₂, h₃⟩
        · right
          exact ⟨line', h₁, h₂⟩
    · rw [if_neg hc]
      rcases ih f (line ++ part ++ [c]) [] hf (List.nil_prefix)
          (by simp only [List.length_nil]; omega) with
        ⟨consumed, rest', added, h₁, h₂, h₃⟩ | ⟨line', h₁, h₂⟩
      · left
        refine ⟨c :: consumed, rest', part ++ [c] ++ added, by simp [h₁], ?_, ?_⟩
        · simp only [List.nil_append] at h₂
          simp [h₂]
        · simpa using h₃
      · right
        refine ⟨line', ?_, h₂⟩
        exact List.IsPrefix.trans ⟨part ++ [c], by simp⟩ h₁

/-- With a delimiter that does not contain the character 255, the loop on a good stream
either stops on a completed match, the characters consumed (preceded by the
candidate) being what was added to the line followed by the delimiter, or runs to
the end of the stream, and then the line holds the candidate, all the characters of
the stream and one character 255 after them. -/
theorem getLineLoop_conserves (delim : Str) (hff : 255 ∉ delim) :
    ∀ (b : Str) (fuel : Nat) (line part : Str), b.length + 2 ≤ fuel → part <+: delim →
      part.length < delim.length →
      (∃ consumed rest added, b = consumed ++ rest ∧ part ++ consumed = added ++ delim ∧
        getLineLoop delim fuel ⟨b, false, false⟩ line part
          = .ok (⟨rest, false, false⟩, line ++ added))
      ∨ getLineLoop delim fuel ⟨b, false, false⟩ line part
          = .ok (⟨[], true, true⟩, line ++ part ++ b ++ [255]) := by
  intro b
  induction b with
  | nil =>
    intro fuel line part hfuel hpre hlen
    obtain ⟨f, rfl⟩ : ∃ k, fuel = k + 1 := ⟨fuel - 1, by simp at hfuel; omega⟩
    right
    rw [getLineLoop_step _ _ _ _ _ rfl hlen, get_nil]
    have hne : ¬ charOfInt none = delim[part.length] := by
      intro h
      apply hff
      have hmem : delim[part.length] ∈ delim := List.getElem_mem hlen
      rw [← h] at hmem
      exact hmem
    rw [if_neg hne, getLineLoop_failed _ _ ⟨[], true, true⟩ _ _ rfl]
    simp [charOfInt]
  | cons c rest ih =>
    intro fuel line part hfuel hpre hlen
    obtain ⟨f, rfl⟩ : ∃ k, fuel = k + 1 := ⟨fuel - 1, by simp at hfuel; omega⟩
    have hf : rest.length + 2 ≤ f := by simp at hfuel; omega
    rw [getLineLoop_step _ _ _ _ _ rfl hlen, get_cons]
    simp only [charOfInt]
    obtain ⟨t, ht⟩ := prefix_snoc delim part hpre hlen
    by_cases hc : c = delim[part.length]
    · rw [if_pos hc]
      by_cases hdone : part.length + 1 = delim.length
      · rw [if_pos hdone]
        left
        refine ⟨[c], rest, [], by simp, ?_, by simp⟩
        have hlen' := congrArg List.length ht
        simp only [List.length_append, List.length_cons] at hlen'
        have : t = [] := List.eq_nil_of_length_eq_zero (by omega)
        subst this
        rw [hc]; simpa using ht.symm
      · rw [if_neg hdone]
        have hpre' : part ++ [c] <+: delim := ⟨t, by rw [hc]; simpa using ht.symm⟩
        have hlen' : (part ++ [c]).length < delim.length := by simp; omega
        rcases ih f line (part ++ [c]) hf hpre' hlen' with
          ⟨consumed, rest', added, h₁, h₂, h₃⟩ | h
        · left
          exact ⟨c :: consumed, rest', added, by simp [h₁], by simpa using h₂, h₃⟩
        · right
          rw [h]; simp
    · rw [if_neg hc]
      rcases ih f (line ++ part ++ [c]) [] hf ( List.nil_prefix)
          (by simp only [List.length_nil]; omega) with
        ⟨consumed, rest', added, h₁, h₂, h₃⟩ | h
      · left
        refine ⟨c :: consumed, rest', part ++ [c] ++ added, by simp [h₁], ?_, ?_⟩
        · simp only [List.nil_append] at h₂
          simp [h₂]
        · simpa using h₃
      · right
        rw [h]; simp

/-- With a delimiter of two or more characters, none of them the character 255, a read from
a good stream either frames a segment, the stream being the content added to the
line, the delimiter and what is left unread, or reaches the end of the stream having
added the whole stream and one character 255 to the line. -/
theorem getLine_scan_conserves (delim b line : Str) (hlen : 2 ≤ delim.length)
    (hff : 255 ∉ delim) :
    (∃ content rest, b = content ++ delim ++ rest ∧
      getLine (IStream.ofStr b) line delim = .ok (IStream.ofStr rest, line ++ content))
    ∨ getLine (IStream.ofStr b) line delim = .ok (⟨[], true, true⟩, line ++ b ++ [255]) := by
  match delim, hlen with
  | d₀ :: d₁ :: dt, _ =>
    simp only [getLine, IStream.ofStr]
    rcases getLineLoop_conserves (d₀ :: d₁ :: dt) hff b (b.length + 2) line [] (le_refl _)
        ( List.nil_prefix) (by simp) with ⟨consumed, rest, added, h₁, h₂, h₃⟩ | h
    · left
      simp only [List.nil_append] at h₂
      exact ⟨added, rest, by rw [h₁, h₂], h₃⟩
    · right
      rw [h]; simp

/-- What the loop leaves out when a good stream runs out: the line it returns, followed by
the candidate it held at the end (a prefix of the delimiter), is the line it was given,
the candidate it started with, all the characters of the stream and the character that
the end-of-file value converts to. -/
theorem getLineLoop_withheld (delim : Str) :
    ∀ (b : Str) (fuel : Nat) (line part : Str), b.length + 2 ≤ fuel → part <+: delim →
      part.length < delim.length →
      (∃ consumed rest added, b = consumed ++ rest ∧ part ++ consumed = added ++ delim ∧
        getLineLoop delim fuel ⟨b, false, false⟩ line part
          = .ok (⟨rest, false, false⟩, line ++ added))
      ∨ (∃ line' part', part' <+: delim ∧ line' ++ part' = line ++ part ++ b ++ [charOfInt none] ∧
        getLineLoop delim fuel ⟨b, false, false⟩ line part = .ok (⟨[], true, true⟩, line')) := by
  intro b
  induction b with
  | nil =>
    intro fuel line part hfuel hpre hlen
    obtain ⟨f, rfl⟩ : ∃ k, fuel = k + 1 := ⟨fuel - 1, by simp at hfuel; omega⟩
    right
    rw [getLineLoop_step _ _ _ _ _ rfl hlen, get_nil]
    simp only [getLineLoop_failed _ _ ⟨[], true, true⟩ _ _ rfl]
    obtain ⟨t, ht⟩ := prefix_snoc delim part hpre hlen
    by_cases hc : charOfInt none = delim[part.length]
    · have hpre' : part ++ [charOfInt none] <+: delim :=
        ⟨t, by rw [hc]; simpa using ht.symm⟩
      rw [if_pos hc]
      split_ifs
      · exact ⟨line, part ++ [charOfInt none], hpre', by simp, rfl⟩
      · exact ⟨line, part ++ [charOfInt none], hpre', by simp, rfl⟩
    · rw [if_neg hc]
      exact ⟨_, [], List.nil_prefix, by simp, rfl⟩
  | cons c rest ih =>
    intro fuel line part hfuel hpre hlen
    obtain ⟨f, rfl⟩ : ∃ k, fuel = k + 1 := ⟨fuel - 1, by simp at hfuel; omega⟩
    have hf : rest.length + 2 ≤ f := by simp at hfuel; omega
    rw [getLineLoop_step _ _ _ _ _ rfl hlen, get_cons]
    simp only [charOfInt]
    obtain ⟨t, ht⟩ := prefix_snoc delim part hpre hlen
    by_cases hc : c = delim[part.length]
    · rw [if_pos hc]
      by_cases hdone : part.length + 1 = delim.length
      · rw [if_pos hdone]
        left
        refine ⟨[c], rest, [], by simp, ?_, by simp⟩
        have hlen' := congrArg List.length ht
        simp only [List.length_append, List.length_cons] at hlen'
        have : t = [] := List.eq_nil_of_length_eq_zero (by omega)
        subst this
        rw [hc]; simpa using ht.symm
      · rw [if_neg hdone]
        have hpre' : part ++ [c] <+: delim := ⟨t, by rw [hc]; simpa using ht.symm⟩
        have hlen' : (part ++ [c]).length < delim.length := by simp; omega
        rcases ih f line (part ++ [c]) hf hpre' hlen' with
          ⟨consumed, rest', added, h₁, h₂, h₃⟩ | ⟨line', part', h₁, h₂, h₃⟩
        · left
          exact ⟨c :: consumed, rest', added, by simp [h₁], by simpa using h₂, h₃⟩
        · right
          exact ⟨line', part', h₁, by simpa using h₂, h₃⟩
    · rw [if_neg hc]
      rcases ih f (line ++ part ++ [c]) [] hf ( List.nil_prefix)
          (by simp only [List.length_nil]; omega) with
        ⟨consumed, rest', added, h₁, h₂, h₃⟩ | ⟨line', part', h₁, h₂, h₃⟩
      · left
        refine ⟨c :: consumed, rest', part ++ [c] ++ added, by simp [h₁], ?_, ?_⟩
        · simp only [List.nil_append] at h₂
          simp [h₂]
        · simpa using h₃
      · right
        exact ⟨line', part', h₁, by simpa using h₂, h₃⟩

/-! ## `std::getline` -/

/-- Up to the first occurrence of `c`, `takeWhile` keeps everything. -/
theorem takeWhile_ne_append (c : Byte) (r : Str) :
    ∀ p : Str, c ∉ p → (p ++ c :: r).takeWhile (fun x => x != c) = p := by
  intro p
  induction p with
  | nil => intro _; simp
  | cons a p ih =>
    intro h
    have ha : a ≠ c := fun e => h (by simp [e])
    have hp : c ∉ p := fun e => h (by simp [e])
    simp [List.takeWhile_cons, ha, ih hp]

/-- From the first occurrence of `c` on, `dropWhile` keeps everything. -/
theorem dropWhile_ne_append (c : Byte) (r : Str) :
    ∀ p : Str, c ∉ p → (p ++ c :: r).dropWhile (fun x => x != c) = c :: r := by
  intro p
  induction p with
  | nil => intro _; simp
  | cons a p ih =>
    intro h
    have ha : a ≠ c := fun e => h (by simp [e])
    have hp : c ∉ p := fun e => h (by simp [e])
    simp [List.dropWhile_cons, ha, ih hp]

/-- When `c` does not occur at all, `takeWhile` keeps everything and `dropWhile` nothing. -/
theorem takeWhile_dropWhile_of_not_mem (c : Byte) :
    ∀ b : Str, c ∉ b →
      b.takeWhile (fun x => x != c) = b ∧ b.dropWhile (fun x => x != c) = [] := by
  intro b
  induction b with
  | nil => intro _; simp
  | cons a b ih =>
    intro h
    have ha : a ≠ c := fun e => h (by simp [e])
    have hb : c ∉ b := fun e => h (by simp [e])
    simp [List.takeWhile_cons, List.dropWhile_cons, ha, ih hb]

/-- On a good stream `std::getline` is exact: it returns the characters before the first
delimiter character and leaves the stream just after it. -/
theorem stdGetline_exact (c : Byte) (p r line : Str) (hc : c ∉ p) :
    stdGetline (IStream.ofStr (p ++ c :: r)) line c = (IStream.ofStr r, p) := by
  simp [stdGetline, IStream.ofStr, IStream.good, takeWhile_ne_append c r p hc,
    dropWhile_ne_append c r p hc]

/-- A one-character string occurs in a string exactly when its character does. -/
theorem singleton_infix_iff (c : Byte) (b : Str) : [c] <:+: b ↔ c ∈ b := by
  constructor
  · rintro ⟨u, v, rfl⟩; simp
  · intro h
    obtain ⟨u, v, rfl⟩ := List.append_of_mem h
    exact ⟨u, v, by simp⟩

/-! ## The claims on `getLine` -/

/-- C10. For a one-character delimiter `c` and a (good) stream `p ++ [c] ++ r` in which `p` does
not contain `c`, `getLine` sets the line to exactly `p`, whatever the line held
before, consumes `p` and the delimiter character, and leaves exactly `r` unread. -/
theorem getLine_single_char (c : Byte) (p r line : Str) (hc : c ∉ p) :
    getLine (IStream.ofStr (p ++ [c] ++ r)) line [c] = .ok (IStream.ofStr r, p) := by
  simp only [getLine, List.append_assoc, List.singleton_append]
  rw [stdGetline_exact c p r line hc]

/-- C10, at an instance: delimiter `;`, stream `ab;cd`, a line that held `old`. -/
theorem getLine_single_char_witness :
    getLine (IStream.ofStr (ascii "ab" ++ [59] ++ ascii "cd")) (ascii "old") [59]
      = .ok (IStream.ofStr (ascii "cd"), ascii "ab") :=
  getLine_single_char 59 (ascii "ab") (ascii "cd") (ascii "old") (by decide)

/-- The spec's example of successive reads: on `xxENDyyENDzz` with the delimiter `END`, two
reads yield `xx` and then `yy`, each leaving the stream just after the delimiter. -/
theorem getLine_example_reads :
    getLine (IStream.ofStr (ascii "xxENDyyENDzz")) [] (ascii "END")
        = .ok (IStream.ofStr (ascii "yyENDzz"), ascii "xx")
    ∧ getLine (IStream.ofStr (ascii "yyENDzz")) [] (ascii "END")
        = .ok (IStream.ofStr (ascii "zz"), ascii "yy") := by
  decide

/-- C2, the failing input: the delimiter `ab` is not self-overlapping and occurs in the
stream `aab`, with `a` before its first occurrence and nothing after it. The read does
not return `a`: the second `a` breaks the candidate `a` and is itself appended to the
line without being tried as the start of a new candidate, so the scan runs past the
delimiter to the end of the stream. -/
theorem getLine_misses_delimiter :
    selfOverlapping (ascii "ab") = false
    ∧ ascii "aab" = ascii "a" ++ ascii "ab" ++ []
    ∧ getLine (IStream.ofStr (ascii "aab")) [] (ascii "ab")
        = .ok (⟨[], true, true⟩, ascii "aab" ++ [255])
    ∧ getLine (IStream.ofStr (ascii "aab")) [] (ascii "ab")
        ≠ .ok (IStream.ofStr [], ascii "a") := by
  decide

/-- C3, counterexample, at two inputs. The third read of `xxENDyyENDzz` with the delimiter
`END` finds the stream exhausted before a match: it does not fail but returns, and
the line holds `zz` (followed by the character that the end-of-file value converts
to). With the delimiter `E`, 255 the stream `zzE` is exhausted before a match as
well (the delimiter does not occur in it): the read returns with the line `zz`. -/
theorem getLine_exhausted_third_read :
    getLine (IStream.ofStr (ascii "zz")) [] (ascii "END")
        = .ok (⟨[], true, true⟩, ascii "zz" ++ [255])
    ∧ ¬ [69, 255] <:+: ascii "zzE"
    ∧ getLine (IStream.ofStr (ascii "zzE")) [] [69, 255]
        = .ok (⟨[], true, true⟩, ascii "zz") := by
  decide

/-- C3, amended. For a non-empty delimiter and a good stream in which the delimiter does not
occur, `getLine` raises no error. It returns with `eofbit` set and the whole stream
consumed, and it hands the content back in the line: with a one-character delimiter
the line is exactly the content of the stream; with a longer one `failbit` is set as
well, the line extends the line that was passed in, and it agrees with the line that
was passed in followed by the characters of the stream, being at most one character
longer and short of it by fewer characters than the delimiter has; when the
delimiter does not contain the character 255 it is not short of it at all. -/
theorem getLine_exhausted (s : IStream) (line delim : Str) (hd : delim ≠ [])
    (hs : s.good = true) (hno : ¬ delim <:+: s.buf) :
    ∃ s' line', getLine s line delim = .ok (s', line') ∧ s'.eofbit = true ∧ s'.buf = []
      ∧ (delim.length = 1 → line' = s.buf)
      ∧ (2 ≤ delim.length → s'.failbit = true ∧ line <+: line'
          ∧ (line ++ s.buf <+: line' ∨ line' <+: line ++ s.buf)
          ∧ (line ++ s.buf).length < line'.length + delim.length
          ∧ line'.length ≤ (line ++ s.buf).length + 1
          ∧ (255 ∉ delim → line ++ s.buf <+: line')) := by
  obtain ⟨b, e, f⟩ := s
  simp only [IStream.good, Bool.and_eq_true, Bool.not_eq_true'] at hs
  obtain ⟨he, hf⟩ := hs
  subst he hf
  match delim, hd with
  | [d], _ =>
    have hmem : d ∉ b := fun h => hno ((singleton_infix_iff d b).2 h)
    obtain ⟨h₁, h₂⟩ := takeWhile_dropWhile_of_not_mem d b hmem
    refine ⟨⟨[], true, b.isEmpty⟩, b, ?_, rfl, rfl, fun _ => rfl, fun h => ?_⟩
    · simp [getLine, stdGetline, IStream.good, h₁, h₂]
    · simp at h
  | d₁ :: d₂ :: dt, _ =>
    simp only [getLine]
    rcases getLineLoop_spec (d₁ :: d₂ :: dt) b (b.length + 2) line [] (le_refl _)
        List.nil_prefix (by simp) with ⟨consumed, rest, added, h₁, h₂, _⟩ | ⟨line', h₁, h₂⟩
    · exfalso
      apply hno
      simp only [List.nil_append] at h₂
      exact ⟨added, rest, by simp only [h₁, h₂]⟩
    · rcases getLineLoop_withheld (d₁ :: d₂ :: dt) b (b.length + 2) line [] (le_refl _)
          List.nil_prefix (by simp) with
        ⟨consumed, rest, added, h₃, h₄, _⟩ | ⟨line'', part', h₃, h₄, h₅⟩
      · exfalso
        apply hno
        simp only [List.nil_append] at h₄
        exact ⟨added, rest, by simp only [h₃, h₄]⟩
      · rw [h₅] at h₂
        simp only [Except.ok.injEq, Prod.mk.injEq, true_and] at h₂
        subst h₂
        simp only [List.append_nil, charOfInt] at h₄
        have hlen := congrArg List.length h₄
        have hple := h₃.length_le
        simp only [List.length_append, List.length_cons, List.length_nil] at hlen hple
        have hcases : (part' = [] ∧ line'' = line ++ b ++ [255])
            ∨ ∃ p₀, part' = p₀ ++ [255] ∧ line'' ++ p₀ = line ++ b := by
          rcases List.eq_nil_or_concat part' with hp | ⟨p₀, x, hp⟩
          · left
            subst hp
            exact ⟨rfl, by simpa using h₄⟩
          · right
            subst hp
            rw [List.concat_eq_append, ← List.append_assoc] at h₄
            obtain ⟨h₆, h₇⟩ := List.append_inj' h₄ rfl
            simp only [List.cons.injEq, and_true] at h₇
            subst h₇
            exact ⟨p₀, by simp, h₆⟩
        refine ⟨⟨[], true, true⟩, line'', h₅, rfl, rfl, fun h => by simp at h,
          fun _ => ⟨rfl, h₁, ?_, ?_, ?_, fun hff => ?_⟩⟩
        · rcases hcases with ⟨_, h⟩ | ⟨p₀, _, h⟩
          · exact Or.inl ⟨[255], h.symm⟩
          · exact Or.inr ⟨p₀, h⟩
        · simp only [List.length_append, List.length_cons]
          omega
        · simp only [List.length_append]
          omega
        · rcases hcases with ⟨_, h⟩ | ⟨p₀, hp, _⟩
          · exact ⟨[255], h.symm⟩
          · exfalso
            apply hff
            apply h₃.subset
            rw [hp]
            simp

/-- C3, amended, at an instance: the delimiter `END` on the exhausted stream `zz`. -/
theorem getLine_exhausted_witness :
    ∃ s' line', getLine (IStream.ofStr (ascii "zz")) (ascii "old") (ascii "END")
        = .ok (s', line')
      ∧ s'.eofbit = true ∧ s'.buf = []
      ∧ ((ascii "END").length = 1 → line' = (IStream.ofStr (ascii "zz")).buf)
      ∧ (2 ≤ (ascii "END").length → s'.failbit = true ∧ ascii "old" <+: line'
          ∧ (ascii "old" ++ (IStream.ofStr (ascii "zz")).buf <+: line'
              ∨ line' <+: ascii "old" ++ (IStream.ofStr (ascii "zz")).buf)
          ∧ (ascii "old" ++ (IStream.ofStr (ascii "zz")).buf).length
              < line'.length + (ascii "END").length
          ∧ line'.length ≤ (ascii "old" ++ (IStream.ofStr (ascii "zz")).buf).length + 1
          ∧ (255 ∉ ascii "END" →
              ascii "old" ++ (IStream.ofStr (ascii "zz")).buf <+: line')) :=
  getLine_exhausted (IStream.ofStr (ascii "zz")) (ascii "old") (ascii "END") (by decide)
    (by decide) (by decide)

/-! ## The transport -/

/-- A write that the transport accepts transfers all the data. -/
theorem write_of_accepts (t : Stream) (data : Str) (h : t.accepts = true) :
    t.write data =
      { ec := none
        transferred := data.length
        stream := { t with written := t.written ++ data, writeFaults := t.writeFaults.tail } } := by
  obtain ⟨o, w, i, f⟩ := t
  simp only [Stream.accepts, Bool.and_eq_true] at h
  obtain ⟨ho, hf⟩ := h
  subst ho
  match f, hf with
  | [], _ => simp [Stream.write]
  | none :: rest, _ => simp [Stream.write]
  | some k :: rest, hf => simp at hf

/-- A write on a transport that is not open transfers nothing and reports `bad_descriptor`. -/
theorem write_of_closed (t : Stream) (data : Str) (h : t.is_open = false) :
    t.write data = { ec := some .bad_descriptor, transferred := 0, stream := t } := by
  simp [Stream.write, h]

/-- A write leaves the incoming data and the open state of the transport alone. -/
theorem write_frame (t : Stream) (data : Str) :
    (t.write data).stream.incoming = t.incoming ∧ (t.write data).stream.is_open = t.is_open := by
  obtain ⟨o, w, i, f⟩ := t
  cases o
  · simp [Stream.write]
  · match f with
    | [] => simp [Stream.write]
    | none :: rest => simp [Stream.write]
    | some k :: rest => simp [Stream.write]

/-- A write without an error code has transferred all the data. -/
theorem write_ok (t : Stream) (data : Str) (h : (t.write data).ec = none) :
    (t.write data).transferred = data.length
      ∧ (t.write data).stream.written = t.written ++ data := by
  obtain ⟨o, w, i, f⟩ := t
  cases o
  · simp [Stream.write] at h
  · match f with
    | [] => simp [Stream.write]
    | none :: rest => simp [Stream.write]
    | some k :: rest => simp [Stream.write] at h

/-! ## The claims on `sendCommand` -/

/-- C9. On a controller that is not connected, `sendCommand` fails with the error that the
transport reports for a stream that is not open: it returns no response, nothing
reaches the transport, and the Log is as it was. -/
theorem sendCommand_not_connected (c : BaseController) (command : Str)
    (h : c.isConnected = false) :
    (c.sendCommand command).1 = .error (.system_error .bad_descriptor)
      ∧ (c.sendCommand command).2.log = c.log
      ∧ (c.sendCommand command).2.stream = c.stream := by
  simp only [BaseController.isConnected] at h
  simp [BaseController.sendCommand, BaseController.sendCommandInternal, write_of_closed _ _ h]

/-- C9, at an instance: a new controller on a closed transport, with a Log attached. -/
theorem sendCommand_not_connected_witness :
    (unconnected.sendCommand (ascii "GetVersion")).1 = .error (.system_error .bad_descriptor)
      ∧ (unconnected.sendCommand (ascii "GetVersion")).2.log = unconnected.log
      ∧ (unconnected.sendCommand (ascii "GetVersion")).2.stream = unconnected.stream :=
  sendCommand_not_connected unconnected (ascii "GetVersion") (by decide)

/-- C6. With `readResponse` false no read is attempted: the transport's incoming data, the
input stream and `deviceOutput` are exactly as before the call. When the transport
accepts the write, `sendCommand` returns the empty string, and what it has written
ends with the command followed by `REQUEST_END` (before them goes what the working
buffers still held). -/
theorem sendCommand_no_read (c : BaseController) (command : Str)
    (h : c.readResponse = false) :
    (c.sendCommand command).2.stream.incoming = c.stream.incoming
      ∧ (c.sendCommand command).2.istream = c.istream
      ∧ (c.sendCommand command).2.deviceOutput = c.deviceOutput
      ∧ (c.stream.accepts = true →
          (c.sendCommand command).1 = .ok []
          ∧ (c.sendCommand command).2.stream.written
              = c.stream.written ++ (c.ostreamBuffer ++ c.deviceInput)
                ++ (command ++ c.REQUEST_END)) := by
  simp only [BaseController.sendCommand, BaseController.sendCommandInternal, h]
  refine ⟨?_, ?_, ?_, ?_⟩
  · split <;> simp [(write_frame _ _).1]
  · split <;> simp
  · split <;> simp
  · intro hacc
    rw [write_of_accepts _ _ hacc]
    simp

/-- What every `sendCommand` call does to the working buffers, the transport's output and
the Log. `input` is the request string that the call assembles in `deviceInput`; it is
put into the output buffer behind what that buffer still holds, and the buffer is
written. If the write fails the call throws, `deviceInput` keeps the request string
and the Log is untouched. If the write succeeds, `deviceInput` is emptied, and the Log
gets the entry `(input, output)` exactly when the call returns `output`. -/
theorem sendCommand_effect (c : BaseController) (command : Str) :
    (c.sendCommand command).2.stream.written
        = (c.stream.write (c.ostreamBuffer ++ (c.deviceInput ++ command ++ c.REQUEST_END))).stream.written
    ∧ (c.sendCommand command).2.ostreamBuffer
        = (c.ostreamBuffer ++ (c.deviceInput ++ command ++ c.REQUEST_END)).drop
            (c.stream.write (c.ostreamBuffer ++ (c.deviceInput ++ command ++ c.REQUEST_END))).transferred
    ∧ (∀ ec, (c.stream.write (c.ostreamBuffer ++ (c.deviceInput ++ command ++ c.REQUEST_END))).ec = some ec →
        (c.sendCommand command).1 = .error (.system_error ec)
        ∧ (c.sendCommand command).2.deviceInput = c.deviceInput ++ command ++ c.REQUEST_END
        ∧ (c.sendCommand command).2.log = c.log)
    ∧ ((c.stream.write (c.ostreamBuffer ++ (c.deviceInput ++ command ++ c.REQUEST_END))).ec = none →
        (c.sendCommand command).2.deviceInput = []
        ∧ (∀ e, (c.sendCommand command).1 = .error e → (c.sendCommand command).2.log = c.log)
        ∧ (∀ output, (c.sendCommand command).1 = .ok output →
            (c.sendCommand command).2.log
              = writeLog c.log (c.deviceInput ++ command ++ c.REQUEST_END) output)) := by
  simp only [BaseController.sendCommand, BaseController.sendCommandInternal,
    List.append_assoc]
  cases hw : (c.stream.write (c.ostreamBuffer ++ (c.deviceInput ++ (command ++ c.REQUEST_END)))).ec with
  | some ec => simp
  | none =>
    simp only [true_and, reduceCtorEq, false_implies, implies_true, forall_const]
    cases c.readResponse with
    | false => simp
    | true =>
      simp only [if_true]
      split
      · simp
      · split
        · simp
        · split
          · simp
          · simp

/-- C4, counterexample, at two inputs. In the first, `REQUEST_END` does not occur in what
the device sends: the framer read for the echo runs through all the data without
finding its delimiter and the read for the payload finds the stream at its end, yet
the call does not fail; it returns the empty string and appends an entry to the Log.
In the second, an earlier call failed for want of a connection: the call completes
and appends one entry, but the request of that entry is not what the call wrote to
the transport (the transport gets the command three times, the Log twice). -/
theorem sendCommand_logs_unframed_reply :
    (noEcho.stream.incoming = [ascii "ok\r"]
      ∧ ¬ noEcho.REQUEST_END <:+: ascii "ok\r"
      ∧ (noEcho.sendCommand (ascii "GetVersion")).1 = .ok []
      ∧ (noEcho.sendCommand (ascii "GetVersion")).2.istream = ⟨[], true, true⟩
      ∧ (noEcho.sendCommand (ascii "GetVersion")).2.stream.incoming = []
      ∧ (noEcho.sendCommand (ascii "GetVersion")).2.log
          = some ⟨[(ascii "GetVersion\n", [])]⟩)
    ∧ ((unconnected.sendCommand (ascii "GetVersion")).1
          = .error (.system_error .bad_descriptor)
      ∧ reconnected.stream.written = []
      ∧ reconnected.log = some ⟨[]⟩
      ∧ (reconnected.sendCommand (ascii "GetVersion")).1 = .ok (ascii "1.0")
      ∧ (reconnected.sendCommand (ascii "GetVersion")).2.stream.written
          = ascii "GetVersion\nGetVersion\nGetVersion\n"
      ∧ (reconnected.sendCommand (ascii "GetVersion")).2.log
          = some ⟨[(ascii "GetVersion\nGetVersion\n", ascii "1.0")]⟩) := by
  decide

/-- When a call throws and when it returns. If the write succeeds and `readResponse` is set,
the call throws exactly when `read_until` fails, with its error; the two framer reads
never make it throw. If the write succeeds and `read_until` does not fail (or is not
called), the call returns. -/
theorem sendCommand_outcome (c : BaseController) (command : Str)
    (hw : (c.stream.write
      (c.ostreamBuffer ++ (c.deviceInput ++ command ++ c.REQUEST_END))).ec = none) :
    (c.readResponse = true →
      ∀ ec, (readUntil c.RESPONSE_END c.stream.is_open c.stream.incoming c.istream.buf).ec
          = some ec →
        (c.sendCommand command).1 = .error (.system_error ec))
    ∧ ((c.readResponse = true →
        (readUntil c.RESPONSE_END c.stream.is_open c.stream.incoming c.istream.buf).ec = none) →
      ∃ output, (c.sendCommand command).1 = .ok output) := by
  obtain ⟨hinc, hopen⟩ := write_frame c.stream
    (c.ostreamBuffer ++ (c.deviceInput ++ command ++ c.REQUEST_END))
  simp only [List.append_assoc] at hw hinc hopen
  simp only [BaseController.sendCommand, BaseController.sendCommandInternal,
    List.append_assoc, hw, hinc, hopen]
  cases c.readResponse with
  | false => simp
  | true =>
    simp only [if_true, true_implies]
    cases hr : (readUntil c.RESPONSE_END c.stream.is_open c.stream.incoming c.istream.buf).ec with
    | some ec => simp
    | none =>
      simp only [reduceCtorEq, false_implies, implies_true, true_and]
      obtain ⟨⟨is1, cmdInput⟩, h₁⟩ := getLine_returns
        { c.istream with
          buf := (readUntil c.RESPONSE_END c.stream.is_open c.stream.incoming
            c.istream.buf).buffer } [] c.REQUEST_END
      obtain ⟨⟨is2, output⟩, h₂⟩ := getLine_returns is1 [] c.RESPONSE_END
      simp only [h₁, h₂]
      exact fun _ => ⟨output, rfl⟩

/-- C4, amended. With a Log attached, a `sendCommand` call that throws appends nothing to
the Log. On a controller whose two request buffers are empty: if the write of
`command ++ REQUEST_END` fails, the call throws; if the write succeeds and the read for
`RESPONSE_END` fails, it throws; in every other case it returns, whatever the two
framer reads find, and appends exactly one entry, whose request is
`command ++ REQUEST_END`, which is what the call wrote to the transport, and whose
response is the value returned. -/
theorem sendCommand_log (c : BaseController) (command : Str) (l : BasicLog)
    (hl : c.log = some l) :
    (∀ e, (c.sendCommand command).1 = .error e → (c.sendCommand command).2.log = some l)
    ∧ (c.deviceInput = [] → c.ostreamBuffer = [] →
      (∀ ec, (c.stream.write (command ++ c.REQUEST_END)).ec = some ec →
        (c.sendCommand command).1 = .error (.system_error ec))
      ∧ ((c.stream.write (command ++ c.REQUEST_END)).ec = none → c.readResponse = true →
        ∀ ec, (readUntil c.RESPONSE_END c.stream.is_open c.stream.incoming c.istream.buf).ec
            = some ec →
          (c.sendCommand command).1 = .error (.system_error ec))
      ∧ ((c.stream.write (command ++ c.REQUEST_END)).ec = none →
        (c.readResponse = true →
          (readUntil c.RESPONSE_END c.stream.is_open c.stream.incoming c.istream.buf).ec
            = none) →
        ∃ output, (c.sendCommand command).1 = .ok output
          ∧ (c.sendCommand command).2.log
              = some ⟨l.entries ++ [(command ++ c.REQUEST_END, output)]⟩
          ∧ (c.sendCommand command).2.stream.written
              = c.stream.written ++ (command ++ c.REQUEST_END))) := by
  obtain ⟨hwritten, _, hfail, hok⟩ := sendCommand_effect c command
  refine ⟨fun e he => ?_, fun hin hout => ?_⟩
  · cases hw : (c.stream.write
        (c.ostreamBuffer ++ (c.deviceInput ++ command ++ c.REQUEST_END))).ec with
    | some ec => rw [(hfail ec hw).2.2, hl]
    | none => rw [(hok hw).2.1 e he, hl]
  · have hbuf : c.ostreamBuffer ++ (c.deviceInput ++ command ++ c.REQUEST_END)
        = command ++ c.REQUEST_END := by
      rw [hin, hout, List.nil_append, List.nil_append]
    have hreq : c.deviceInput ++ command ++ c.REQUEST_END = command ++ c.REQUEST_END := by
      rw [hin, List.nil_append]
    have hout := sendCommand_outcome c command
    rw [hbuf] at hwritten hfail hok hout
    rw [hreq] at hok
    refine ⟨fun ec hw => (hfail ec hw).1, fun hw hread ec hr => (hout hw).1 hread ec hr,
      fun hw hr => ?_⟩
    obtain ⟨output, h₁⟩ := (hout hw).2 hr
    refine ⟨output, h₁, ?_, ?_⟩
    · rw [(hok hw).2.2 output h₁, hl]; rfl
    · rw [hwritten, (write_ok _ _ hw).2]

/-- C4, amended, at two instances. On `noEcho` the framer reads run out of data: the call
returns and records its entry. On `unconnected` the write fails: the call throws
and the Log stays as it was. -/
theorem sendCommand_log_witness :
    (∃ output, (noEcho.sendCommand (ascii "GetVersion")).1 = .ok output
      ∧ (noEcho.sendCommand (ascii "GetVersion")).2.log
          = some ⟨[] ++ [(ascii "GetVersion" ++ noEcho.REQUEST_END, output)]⟩
      ∧ (noEcho.sendCommand (ascii "GetVersion")).2.stream.written
          = noEcho.stream.written ++ (ascii "GetVersion" ++ noEcho.REQUEST_END))
    ∧ (unconnected.sendCommand (ascii "GetVersion")).1
        = .error (.system_error .bad_descriptor)
    ∧ (unconnected.sendCommand (ascii "GetVersion")).2.log = some ⟨[]⟩ :=
  ⟨((sendCommand_log noEcho (ascii "GetVersion") ⟨[]⟩ (by decide)).2 (by decide)
      (by decide)).2.2 (by decide) (by decide),
    ((sendCommand_log unconnected (ascii "GetVersion") ⟨[]⟩ (by decide)).2 (by decide)
      (by decide)).1 .bad_descriptor (by decide),
    (sendCommand_log unconnected (ascii "GetVersion") ⟨[]⟩ (by decide)).1 _
      (((sendCommand_log unconnected (ascii "GetVersion") ⟨[]⟩ (by decide)).2 (by decide)
        (by decide)).1 .bad_descriptor (by decide))⟩

/-- While every call completes, both request buffers are empty between calls. -/
theorem Completed.buffers_empty {c : BaseController} (h : Completed c) :
    c.deviceInput = [] ∧ c.ostreamBuffer = [] := by
  induction h with
  | new t => exact ⟨rfl, rfl⟩
  | sendCommand c command output c' _ hsend ih =>
    obtain ⟨_, hbuf, hfail, hok⟩ := sendCommand_effect c command
    have h₁ : (c.sendCommand command).1 = .ok output := by rw [hsend]
    have h₂ : (c.sendCommand command).2 = c' := by rw [hsend]
    cases hw : (c.stream.write
        (c.ostreamBuffer ++ (c.deviceInput ++ command ++ c.REQUEST_END))).ec with
    | some ec =>
      rw [(hfail ec hw).1] at h₁
      cases h₁
    | none =>
      rw [← h₂]
      refine ⟨(hok hw).1, ?_⟩
      rw [hbuf, (write_ok _ _ hw).1]
      simp
  | other c c' _ h₁ h₂ ih => exact ⟨h₁.trans ih.1, h₂.trans ih.2⟩

/-- C5. On a controller whose earlier `sendCommand` calls all completed, a call
`sendCommand(command)` whose write the transport accepts writes exactly the command
followed by one `REQUEST_END`, whatever was sent before, and leaves `deviceInput`
empty. -/
theorem sendCommand_writes_request (c : BaseController) (command : Str)
    (hc : Completed c) (hacc : c.stream.accepts = true) :
    (c.sendCommand command).2.stream.written
        = c.stream.written ++ (command ++ c.REQUEST_END)
    ∧ (c.sendCommand command).2.deviceInput = [] := by
  obtain ⟨hin, hout⟩ := hc.buffers_empty
  obtain ⟨hwritten, _, _, hok⟩ := sendCommand_effect c command
  have hw := write_of_accepts c.stream
    (c.ostreamBuffer ++ (c.deviceInput ++ command ++ c.REQUEST_END)) hacc
  refine ⟨?_, (hok (by rw [hw])).1⟩
  rw [hwritten, hw, hin, hout]
  simp

/-- C5, at an instance: the second of two commands, after the first has completed. -/
theorem sendCommand_writes_request_witness :
    ((fireAndForget.sendCommand (ascii "SetMotor 1")).2.sendCommand (ascii "SetLDSRotation On")).2.stream.written
        = (fireAndForget.sendCommand (ascii "SetMotor 1")).2.stream.written
          ++ (ascii "SetLDSRotation On"
            ++ (fireAndForget.sendCommand (ascii "SetMotor 1")).2.REQUEST_END)
    ∧ ((fireAndForget.sendCommand (ascii "SetMotor 1")).2.sendCommand (ascii "SetLDSRotation On")).2.deviceInput = [] :=
  sendCommand_writes_request (fireAndForget.sendCommand (ascii "SetMotor 1")).2
    (ascii "SetLDSRotation On")
    (Completed.sendCommand fireAndForget (ascii "SetMotor 1") [] _
      (Completed.other _ _ (Completed.new ⟨true, [], [], []⟩) rfl rfl) (by decide))
    (by decide)

/-- C6, at an instance: a fire-and-forget command on a connected controller. -/
theorem sendCommand_no_read_witness :
    (fireAndForget.sendCommand (ascii "SetMotor 1")).2.stream.incoming
        = fireAndForget.stream.incoming
      ∧ (fireAndForget.sendCommand (ascii "SetMotor 1")).2.istream = fireAndForget.istream
      ∧ (fireAndForget.sendCommand (ascii "SetMotor 1")).2.deviceOutput
          = fireAndForget.deviceOutput
      ∧ (fireAndForget.stream.accepts = true →
          (fireAndForget.sendCommand (ascii "SetMotor 1")).1 = .ok []
          ∧ (fireAndForget.sendCommand (ascii "SetMotor 1")).2.stream.written
              = fireAndForget.stream.written
                ++ (fireAndForget.ostreamBuffer ++ fireAndForget.deviceInput)
                ++ (ascii "SetMotor 1" ++ fireAndForget.REQUEST_END)) :=
  sendCommand_no_read fireAndForget (ascii "SetMotor 1") (by decide)

/-- When the first character of a non-empty delimiter does not occur in `p`, a read from the
good stream `p ++ delim ++ r` into an empty line returns `p` and leaves `r`. -/
theorem getLine_exact (d₀ : Byte) (dtail p r : Str) (h : d₀ ∉ p) :
    getLine (IStream.ofStr (p ++ d₀ :: dtail ++ r)) [] (d₀ :: dtail)
      = .ok (IStream.ofStr r, p) := by
  cases dtail with
  | nil =>
    simp only [getLine, List.append_assoc, List.singleton_append]
    rw [stdGetline_exact d₀ p r [] h]
  | cons d₁ dt =>
    simp only [getLine, IStream.ofStr]
    have := getLineLoop_exact d₀ (d₁ :: dt) r p [] ((p ++ d₀ :: d₁ :: dt ++ r).length + 2) h
      (by simp; omega)
    simpa using this

/-- On an open transport whose next piece of data contains the delimiter, `read_until`
with an empty buffer takes exactly that piece. -/
theorem readUntil_first_chunk (delim chunk : Str) (more : List Str) (hd : delim ≠ [])
    (hin : delim <:+: chunk) :
    readUntil delim true (chunk :: more) [] = ⟨none, chunk, more⟩ := by
  have hnil : ¬ delim <:+: [] := by simpa using hd
  rw [readUntil, if_neg hnil, if_pos rfl, List.nil_append]
  cases more with
  | nil => rw [readUntil, if_pos hin]
  | cons m ms => rw [readUntil, if_pos hin]

/-- With a one-character delimiter, no match completed and no candidate held means that the
character does not occur. -/
theorem pendingMatch_single (q : Byte) :
    ∀ p : Str, pendingMatch [q] [] p = some [] → q ∉ p := by
  intro p
  induction p with
  | nil => intro _; simp
  | cons c p ih =>
    intro h
    by_cases hc : q = c
    · subst hc
      simp [pendingMatch] at h
    · have h' : pendingMatch [q] [] p = some [] := by
        simpa [pendingMatch, hc] using h
      simpa [hc] using ih h'

/-- When the first character of the delimiter does not occur in `p`, the scan of `p`
completes no match and holds no candidate at its end. -/
theorem pendingMatch_of_not_mem (d₀ : Byte) (dt : Str) :
    ∀ p : Str, d₀ ∉ p → pendingMatch (d₀ :: dt) [] p = some [] := by
  intro p
  induction p with
  | nil => intro _; rfl
  | cons c p ih =>
    intro h
    have hc : d₀ ≠ c := fun e => h (by simp [e])
    have hp : d₀ ∉ p := fun e => h (by simp [e])
    simpa [pendingMatch, hc] using ih hp

/-- The loop follows `pendingMatch`: having scanned `p` without completing a match, it goes
on with the candidate that `pendingMatch` gives and a line that, followed by that
candidate, is the old line, the old candidate and `p`. -/
theorem getLineLoop_pending (delim rest : Str) :
    ∀ (p part line part' : Str), part.length < delim.length →
      pendingMatch delim part p = some part' →
      ∃ line', line' ++ part' = line ++ part ++ p ∧ part'.length < delim.length ∧
        ∀ fuel, getLineLoop delim (p.length + fuel) ⟨p ++ rest, false, false⟩ line part
          = getLineLoop delim fuel ⟨rest, false, false⟩ line' part' := by
  intro p
  induction p with
  | nil =>
    intro part line part' hlen h
    simp only [pendingMatch, Option.some.injEq] at h
    subst h
    exact ⟨line, by simp, hlen, fun fuel => by simp⟩
  | cons c p ih =>
    intro part line part' hlen h
    rw [pendingMatch, List.getElem?_eq_getElem hlen] at h
    by_cases hc : c = delim[part.length]
    · rw [if_pos (by rw [hc])] at h
      by_cases hdone : part.length + 1 = delim.length
      · rw [if_pos hdone] at h
        cases h
      · rw [if_neg hdone] at h
        obtain ⟨line', h₁, h₂, h₃⟩ := ih (part ++ [c]) line part' (by simp; omega) h
        refine ⟨line', by simpa using h₁, h₂, fun fuel => ?_⟩
        have e : (c :: p).length + fuel = (p.length + fuel) + 1 := by simp; omega
        rw [e, getLineLoop_step _ _ _ _ _ rfl hlen, List.cons_append, get_cons]
        simp only [charOfInt]
        rw [if_pos hc, if_neg hdone]
        exact h₃ fuel
    · rw [if_neg (fun e => hc (Option.some.inj e).symm)] at h
      obtain ⟨line', h₁, h₂, h₃⟩ := ih [] (line ++ part ++ [c]) part'
        (by simp only [List.length_nil]; omega) h
      refine ⟨line', by simpa using h₁, h₂, fun fuel => ?_⟩
      have e : (c :: p).length + fuel = (p.length + fuel) + 1 := by simp; omega
      rw [e, getLineLoop_step _ _ _ _ _ rfl hlen, List.cons_append, get_cons]
      simp only [charOfInt]
      rw [if_neg hc]
      exact h₃ fuel

/-- A read frames `p` when the scan for the delimiter completes no match within `p` and holds
no candidate at its end: from the good stream `p ++ delim ++ r` it returns `p` and
leaves `r`. -/
theorem getLine_frames (delim p r : Str) (hd : delim ≠ [])
    (h : pendingMatch delim [] p = some []) :
    getLine (IStream.ofStr (p ++ delim ++ r)) [] delim = .ok (IStream.ofStr r, p) := by
  obtain _ | ⟨d₀, _ | ⟨d₁, dt⟩⟩ := delim
  · exact absurd rfl hd
  · have hq := pendingMatch_single d₀ p h
    simp only [getLine, List.append_assoc, List.singleton_append]
    rw [stdGetline_exact d₀ p r [] hq]
  · obtain ⟨line', h₁, _, h₃⟩ := getLineLoop_pending (d₀ :: d₁ :: dt) (d₀ :: d₁ :: dt ++ r)
      p [] [] [] (by simp) h
    simp only [List.append_nil, List.nil_append] at h₁
    rw [h₁] at h₃
    have hfuel : (p ++ (d₀ :: d₁ :: dt) ++ r).length + 2
        = p.length + ((d₀ :: d₁ :: dt).length + r.length + 2) := by
      simp only [List.length_append]; omega
    simp only [getLine, IStream.ofStr]
    rw [hfuel, List.append_assoc, h₃]
    have := getLineLoop_match r (d₀ :: d₁ :: dt) [] p
      ((d₀ :: d₁ :: dt).length + r.length + 2) (by simp) (by omega)
    simpa using this

/-- The loop stops early when the scan completes a match within `p`: some of `p` is then
left unread. -/
theorem getLineLoop_early (delim rest : Str) :
    ∀ (p part line : Str), part.length < delim.length →
      pendingMatch delim part p = none →
      ∀ fuel, ∃ p₂ line', getLineLoop delim (p.length + fuel) ⟨p ++ rest, false, false⟩ line part
        = .ok (⟨p₂ ++ rest, false, false⟩, line') := by
  intro p
  induction p with
  | nil =>
    intro part line hlen h
    simp [pendingMatch] at h
  | cons c p ih =>
    intro part line hlen h fuel
    rw [pendingMatch, List.getElem?_eq_getElem hlen] at h
    have e : (c :: p).length + fuel = (p.length + fuel) + 1 := by simp; omega
    rw [e, getLineLoop_step _ _ _ _ _ rfl hlen, List.cons_append, get_cons]
    simp only [charOfInt]
    by_cases hc : c = delim[part.length]
    · rw [if_pos (by rw [hc])] at h
      rw [if_pos hc]
      by_cases hdone : part.length + 1 = delim.length
      · rw [if_pos hdone]
        exact ⟨p, line, rfl⟩
      · rw [if_neg hdone] at h
        rw [if_neg hdone]
        exact ih (part ++ [c]) line (by simp; omega) h fuel
    · rw [if_neg (fun e => hc (Option.some.inj e).symm)] at h
      rw [if_neg hc]
      exact ih [] (line ++ part ++ [c]) (by simp only [List.length_nil]; omega) h fuel

/-- The line that the loop returns extends the line it was given. -/
theorem getLineLoop_line_prefix (delim b : Str) (fuel : Nat) (line : Str) (st : IStream)
    (L : Str) (hfuel : b.length + 2 ≤ fuel) (hd : 0 < delim.length)
    (h : getLineLoop delim fuel ⟨b, false, false⟩ line [] = .ok (st, L)) : line <+: L := by
  rcases getLineLoop_spec delim b fuel line [] hfuel ( List.nil_prefix) hd with
    ⟨consumed, rest, added, _, _, h₃⟩ | ⟨line', h₁, h₂⟩
  · rw [h₃] at h
    cases h
    exact ⟨added, rfl⟩
  · rw [h₂] at h
    cases h
    exact h₁

/-- A candidate that the scan holds when it comes to the delimiter spoils the read: the
loop either stops before the end of the next `s` characters, when they are more than
the candidate lacks, or adds the candidate and more to the line. -/
theorem getLineLoop_candidate (delim r : Str) :
    ∀ (s part line : Str) (fuel : Nat) (st : IStream) (L : Str),
      part.length < delim.length → delim.length < part.length + s.length →
      s.length + r.length + 2 ≤ fuel →
      getLineLoop delim fuel ⟨s ++ r, false, false⟩ line part = .ok (st, L) →
      r.length < st.buf.length ∨ (line ++ part).length < L.length := by
  intro s
  induction s with
  | nil =>
    intro part line fuel st L h₁ h₂
    simp at h₂
    omega
  | cons c s ih =>
    intro part line fuel st L hlen hover hfuel h
    obtain ⟨f, rfl⟩ : ∃ k, fuel = k + 1 := ⟨fuel - 1, by simp at hfuel; omega⟩
    rw [getLineLoop_step _ _ _ _ _ rfl hlen, List.cons_append, get_cons] at h
    simp only [charOfInt] at h
    simp only [List.length_cons] at hover hfuel
    by_cases hc : c = delim[part.length]
    · rw [if_pos hc] at h
      by_cases hdone : part.length + 1 = delim.length
      · rw [if_pos hdone] at h
        cases h
        left
        simp only [List.length_append]
        omega
      · rw [if_neg hdone] at h
        rcases ih (part ++ [c]) line f st L (by simp; omega) (by simp; omega) (by omega) h with
          h' | h'
        · exact Or.inl h'
        · right
          simp only [List.length_append, List.length_singleton] at h' ⊢
          omega
    · rw [if_neg hc] at h
      right
      have hp := getLineLoop_line_prefix delim (s ++ r) f (line ++ part ++ [c]) st L
        (by simp only [List.length_append]; omega) (by omega) h
      have := hp.length_le
      simp only [List.length_append, List.length_singleton] at this ⊢
      omega

/-- The condition of `getLine_frames` is the exact one: a read from the good stream
`p ++ delim ++ r` into an empty line returns `p` and leaves `r` if and only if the scan
for the delimiter completes no match within `p` and holds no candidate at its end. -/
theorem getLine_frames_iff (delim p r : Str) (hd : delim ≠ []) :
    getLine (IStream.ofStr (p ++ delim ++ r)) [] delim = .ok (IStream.ofStr r, p)
      ↔ pendingMatch delim [] p = some [] := by
  refine ⟨fun h => ?_, getLine_frames delim p r hd⟩
  obtain _ | ⟨d₀, _ | ⟨d₁, dt⟩⟩ := delim
  · exact absurd rfl hd
  · apply pendingMatch_of_not_mem
    have hline : (stdGetline (IStream.ofStr (p ++ [d₀] ++ r)) [] d₀).2
        = (p ++ [d₀] ++ r).takeWhile (fun c => c != d₀) := by
      simp only [stdGetline, IStream.ofStr, IStream.good, Bool.not_false, Bool.and_self,
        if_true]
      split <;> rfl
    simp only [getLine, Except.ok.injEq] at h
    rw [h] at hline
    simp only at hline
    intro hmem
    rw [hline] at hmem
    have := List.mem_takeWhile_imp hmem
    simp at this
  · have hfuel : (p ++ (d₀ :: d₁ :: dt) ++ r).length + 2
        = p.length + ((d₀ :: d₁ :: dt).length + r.length + 2) := by
      simp only [List.length_append]; omega
    simp only [getLine, IStream.ofStr] at h
    rw [hfuel, List.append_assoc] at h
    cases hp : pendingMatch (d₀ :: d₁ :: dt) [] p with
    | none =>
      obtain ⟨p₂, line', h'⟩ := getLineLoop_early (d₀ :: d₁ :: dt) (d₀ :: d₁ :: dt ++ r) p [] []
        (by simp) hp ((d₀ :: d₁ :: dt).length + r.length + 2)
      rw [h'] at h
      simp only [Except.ok.injEq, Prod.mk.injEq, IStream.mk.injEq, and_true] at h
      have := congrArg List.length h.1
      simp only [List.length_append, List.length_cons] at this
      omega
    | some part' =>
      obtain ⟨line', h₁, h₂, h₃⟩ := getLineLoop_pending (d₀ :: d₁ :: dt)
        (d₀ :: d₁ :: dt ++ r) p [] [] part' (by simp) hp
      rw [h₃] at h
      cases part' with
      | nil => rfl
      | cons a t =>
        exfalso
        rcases getLineLoop_candidate (d₀ :: d₁ :: dt) r (d₀ :: d₁ :: dt) (a :: t) line' _ _ _
          h₂ (by simp) (by omega) h with h' | h'
        · simp at h'
        · rw [h₁] at h'
          simp at h'

/-- When `RESPONSE_END` occurs in the reply only at its end, `read_until` on an open transport
gathers the pieces of the reply, however many they are, until the buffer holds the
whole reply, and reads nothing beyond it. -/
theorem readUntil_chunks (delim reply : Str) (more : List Str) (hin : delim <:+: reply)
    (hfirst : ∀ b : Str, b <+: reply → delim <:+: b → b = reply) :
    ∀ (chunks : List Str) (buffer : Str), buffer ++ chunks.flatten = reply →
      ∃ rest, readUntil delim true (chunks ++ more) buffer = ⟨none, reply, rest⟩ := by
  intro chunks
  induction chunks with
  | nil =>
    intro buffer hb
    simp only [List.flatten_nil, List.append_nil] at hb
    subst hb
    cases more with
    | nil => exact ⟨[], by simp [readUntil, hin]⟩
    | cons m ms => exact ⟨m :: ms, by simp [readUntil, hin]⟩
  | cons chunk chunks ih =>
    intro buffer hb
    by_cases hfound : delim <:+: buffer
    · have : buffer = reply := hfirst buffer ⟨(chunk :: chunks).flatten, hb⟩ hfound
      subst this
      exact ⟨chunk :: chunks ++ more, by simp [readUntil, hfound]⟩
    · obtain ⟨rest, hrest⟩ := ih (buffer ++ chunk) (by simpa using hb)
      exact ⟨rest, by simp [readUntil, hfound, hrest]⟩

/-- C1, counterexample, at five inputs. In each the delimiters are non-empty and differ, the
reply is an echo, `REQUEST_END`, a payload and `RESPONSE_END`, and the payload does not
contain `RESPONSE_END`. (1) The echo `a\nb` contains `REQUEST_END`: the echo is
framed at the first `REQUEST_END` of the reply, and `sendCommand` returns `b\nP`.
(2) The echo `a` is the first character of `REQUEST_END`, which is `ab`: the scan
misses the delimiter and `sendCommand` returns the empty string. (3) The payload `a`
and `RESPONSE_END`, which is `aa`, overlap: the match is completed one character early
and `sendCommand` returns the empty string. (4) `RESPONSE_END` occurs in
`REQUEST_END` and the reply comes in two pieces: the read stops after the first and
`sendCommand` returns the empty string. (5) An earlier call has run the input stream
into its end: the framer reads do nothing and `sendCommand` returns the empty
string. -/
theorem sendCommand_echo_with_delimiter :
    (echoing.REQUEST_END ≠ [] ∧ echoing.RESPONSE_END ≠ []
      ∧ echoing.REQUEST_END ≠ echoing.RESPONSE_END
      ∧ echoing.stream.incoming
          = [ascii "a\nb" ++ echoing.REQUEST_END ++ ascii "P" ++ echoing.RESPONSE_END]
      ∧ ¬ echoing.RESPONSE_END <:+: ascii "P"
      ∧ (echoing.sendCommand (ascii "a\nb")).1 = .ok (ascii "b\nP")
      ∧ (echoing.sendCommand (ascii "a\nb")).1 ≠ .ok (ascii "P"))
    ∧ (echoingTwoChar.REQUEST_END ≠ [] ∧ echoingTwoChar.RESPONSE_END ≠ []
      ∧ echoingTwoChar.REQUEST_END ≠ echoingTwoChar.RESPONSE_END
      ∧ echoingTwoChar.stream.incoming
          = [ascii "a" ++ echoingTwoChar.REQUEST_END ++ ascii "P"
              ++ echoingTwoChar.RESPONSE_END]
      ∧ ¬ echoingTwoChar.RESPONSE_END <:+: ascii "P"
      ∧ (echoingTwoChar.sendCommand (ascii "a")).1 = .ok []
      ∧ (echoingTwoChar.sendCommand (ascii "a")).1 ≠ .ok (ascii "P"))
    ∧ (overlappingEnd.REQUEST_END ≠ [] ∧ overlappingEnd.RESPONSE_END ≠ []
      ∧ overlappingEnd.REQUEST_END ≠ overlappingEnd.RESPONSE_END
      ∧ overlappingEnd.stream.incoming
          = [ascii "x" ++ overlappingEnd.REQUEST_END ++ ascii "a"
              ++ overlappingEnd.RESPONSE_END]
      ∧ ¬ overlappingEnd.RESPONSE_END <:+: ascii "a"
      ∧ (overlappingEnd.sendCommand (ascii "x")).1 = .ok []
      ∧ (overlappingEnd.sendCommand (ascii "x")).1 ≠ .ok (ascii "a"))
    ∧ (twoReads.REQUEST_END ≠ [] ∧ twoReads.RESPONSE_END ≠ []
      ∧ twoReads.REQUEST_END ≠ twoReads.RESPONSE_END
      ∧ twoReads.stream.incoming.flatten
          = ascii "GetVersion" ++ twoReads.REQUEST_END ++ ascii "1.0" ++ twoReads.RESPONSE_END
      ∧ ¬ twoReads.RESPONSE_END <:+: ascii "1.0"
      ∧ (twoReads.sendCommand (ascii "GetVersion")).1 = .ok []
      ∧ (twoReads.sendCommand (ascii "GetVersion")).1 ≠ .ok (ascii "1.0"))
    ∧ (exhaustedBefore.REQUEST_END ≠ [] ∧ exhaustedBefore.RESPONSE_END ≠ []
      ∧ exhaustedBefore.REQUEST_END ≠ exhaustedBefore.RESPONSE_END
      ∧ exhaustedBefore.stream.incoming
          = [ascii "GetVersion" ++ exhaustedBefore.REQUEST_END ++ ascii "1.0"
              ++ exhaustedBefore.RESPONSE_END]
      ∧ ¬ exhaustedBefore.RESPONSE_END <:+: ascii "1.0"
      ∧ exhaustedBefore.istream = ⟨[], true, true⟩
      ∧ (exhaustedBefore.sendCommand (ascii "GetVersion")).1 = .ok []
      ∧ (exhaustedBefore.sendCommand (ascii "GetVersion")).1 ≠ .ok (ascii "1.0")) :=
  ⟨by decide, by decide, by decide, by decide, by decide⟩

/-- C1, amended. Take a controller with `readResponse` set and non-empty delimiters, whose
input stream is good and whose transport accepts the write. Suppose the read for
`RESPONSE_END` returns with a reply `echo ++ REQUEST_END ++ payload ++ RESPONSE_END` at
the head of the input buffer, that the scan for `REQUEST_END` completes no match
within the echo and holds no candidate at its end, and the same of the scan for
`RESPONSE_END` and the payload. Then `sendCommand` returns exactly the payload,
and the input stream is left good, just after the reply. -/
theorem sendCommand_returns_payload (c : BaseController)
    (command echo payload extra : Str) (more : List Str)
    (hread : c.readResponse = true) (hacc : c.stream.accepts = true)
    (hgood : c.istream.good = true)
    (hq : c.REQUEST_END ≠ []) (he : c.RESPONSE_END ≠ [])
    (hdelivered : readUntil c.RESPONSE_END true c.stream.incoming c.istream.buf
      = ⟨none, echo ++ c.REQUEST_END ++ payload ++ c.RESPONSE_END ++ extra, more⟩)
    (hecho : pendingMatch c.REQUEST_END [] echo = some [])
    (hpayload : pendingMatch c.RESPONSE_END [] payload = some []) :
    (c.sendCommand command).1 = .ok payload
    ∧ (c.sendCommand command).2.istream = IStream.ofStr extra := by
  obtain ⟨⟨buf, eofbit, failbit⟩, ostreamBuffer, deviceOutput, deviceInput, stream, log,
    REQ, RES, rr⟩ := c
  simp only at hread hacc hq he hdelivered hecho hpayload
  simp only [IStream.good, Bool.and_eq_true, Bool.not_eq_true'] at hgood
  obtain ⟨h₁, h₂⟩ := hgood
  subst hread h₁ h₂
  have hopen : stream.is_open = true := by
    simp only [Stream.accepts, Bool.and_eq_true] at hacc
    exact hacc.1
  have hg₁ := getLine_frames REQ echo (payload ++ RES ++ extra) hq hecho
  have hg₂ := getLine_frames RES payload extra he hpayload
  simp only [List.append_assoc] at hdelivered hg₁ hg₂
  simp only [IStream.ofStr] at hg₁ hg₂
  simp only [BaseController.sendCommand, BaseController.sendCommandInternal,
    write_of_accepts _ _ hacc, hopen, hdelivered, IStream.ofStr, List.append_assoc, if_true,
    hg₁, hg₂, and_self]

/-- C1, amended, at an instance: a reply delivered in three pieces, whose payload `a`,
carriage return, `b` contains the first character of `RESPONSE_END`. -/
theorem sendCommand_returns_payload_witness :
    (threeReads.sendCommand (ascii "GetVersion")).1 = .ok (ascii "a\rb")
    ∧ (threeReads.sendCommand (ascii "GetVersion")).2.istream = IStream.ofStr [] :=
  sendCommand_returns_payload threeReads (ascii "GetVersion") (ascii "GetVersion")
    (ascii "a\rb") [] [] (by decide) (by decide) (by decide) (by decide) (by decide)
    (by decide) (by decide) (by decide)

/-! ## The claims on `createCommand` -/

/-- C7, counterexample: for an expansion of `INT_MAX` characters the sizing pass reports
`INT_MAX`, and adding 1 to it overflows the `int`: the size comes out beyond any
array, `new` throws, and `createCommand` does not return the expansion. -/
theorem createCommand_overflow :
    spaces.count (c_str (ascii "%*s")) 2147483647 = INT_MAX
    ∧ createCommand spaces (fun _ => 0) (ascii "%*s") 2147483647 = .throws .bad_alloc
    ∧ createCommand spaces (fun _ => 0) (ascii "%*s") 2147483647
        ≠ .value (spaces.text (c_str (ascii "%*s")) 2147483647) := by
  have h : spaces.count (c_str (ascii "%*s")) 2147483647 = INT_MAX := by
    simp [spaces, INT_MAX]
  have h' : createCommand spaces (fun _ => 0) (ascii "%*s") 2147483647
      = .throws .bad_alloc := by
    simp only [createCommand, h]
    decide
  exact ⟨h, h', by rw [h']; exact fun e => Outcome.noConfusion e⟩

/-- C7, amended. When the sizing pass reports a count that is not negative and is less than
`INT_MAX`, `createCommand` returns exactly the printf-style expansion of the
template, whatever the fresh buffer held: its length is the count reported, and
neither a NUL terminator nor `REQUEST_END` is added. -/
theorem createCommand_expansion {Args : Type} (F : Formatting Args) (heap : Nat → Byte)
    (command : Str) (params : Args) (hok : 0 ≤ F.count (c_str command) params)
    (hfit : F.count (c_str command) params < INT_MAX) :
    createCommand F heap command params = .value (F.text (c_str command) params)
    ∧ ((F.text (c_str command) params).length : Int) = F.count (c_str command) params := by
  have hlen := F.count_eq (c_str command) params hok
  refine ⟨?_, hlen.symm⟩
  obtain ⟨text, htext⟩ : ∃ text, F.text (c_str command) params = text := ⟨_, rfl⟩
  rw [htext] at hlen ⊢
  have hsize : sizeOfInt (intAdd (F.count (c_str command) params) 1) = text.length + 1 := by
    simp only [sizeOfInt, intAdd, hlen, INT_MAX] at hfit ⊢
    omega
  have hptr : ¬ (PTRDIFF_MAX < text.length + 1) := by
    simp only [hlen, INT_MAX, PTRDIFF_MAX] at hfit ⊢
    omega
  have hrange : (text.length + 1 + 2 ^ 64 - 1) % 2 ^ 64 = text.length := by
    simp only [hlen, INT_MAX] at hfit
    omega
  have hmax : ¬ (STRING_MAX_SIZE < text.length) := by
    simp only [hlen, INT_MAX, STRING_MAX_SIZE] at hfit ⊢
    omega
  have hneg : ¬ (F.count (c_str command) params < 0) := by omega
  simp only [createCommand, hsize, hptr, if_false, hrange, hmax, Formatting.snprintf,
    Nat.add_one_ne_zero, hneg, or_self, Nat.add_sub_cancel, htext, Nat.min_self,
    List.take_length, List.append_assoc]
  rw [List.take_left']
  rfl

/-- C7, amended, at the spec's example: the template `Speed %d %d` with the arguments 100 and
50 yields `Speed 100 50`. -/
theorem createCommand_expansion_witness :
    (createCommand intFormatting (fun _ => 0) (ascii "Speed %d %d") [100, 50]
        = .value (intFormatting.text (c_str (ascii "Speed %d %d")) [100, 50])
      ∧ ((intFormatting.text (c_str (ascii "Speed %d %d")) [100, 50]).length : Int)
        = intFormatting.count (c_str (ascii "Speed %d %d")) [100, 50])
    ∧ intFormatting.text (c_str (ascii "Speed %d %d")) [100, 50] = ascii "Speed 100 50" :=
  ⟨createCommand_expansion intFormatting (fun _ => 0) (ascii "Speed %d %d") [100, 50]
    (by decide) (by decide), by decide⟩

/-- C8. Whenever the sizing pass reports a negative size, `createCommand` fails: it throws
and returns no command string, and `createCommandAndSend` then throws the same
exception without entering `sendCommand`, so nothing is written to the transport
and the controller is as it was. The exception is `std::length_error` for -1 (the
size comes to 0, and the result is asked to be one character shorter) and
`std::bad_alloc` below -1 (the size wraps round to more than any array holds). -/
theorem createCommand_negative_fails {Args : Type} (F : Formatting Args)
    (heap : Nat → Byte) (command : Str) (params : Args) (c : BaseController)
    (hneg : F.count (c_str command) params < 0) :
    (∃ e, createCommand F heap command params = .throws e
      ∧ c.createCommandAndSend F heap command params = (.throws e, c))
    ∧ (F.count (c_str command) params = -1 →
        createCommand F heap command params = .throws .length_error)
    ∧ (F.count (c_str command) params < -1 →
        createCommand F heap command params = .throws .bad_alloc) := by
  have hge := F.count_ge (c_str command) params
  have hminus : F.count (c_str command) params = -1 →
      createCommand F heap command params = .throws .length_error := by
    intro h
    simp only [createCommand, h]
    have h₀ : sizeOfInt (intAdd (-1) 1) = 0 := by decide
    rw [h₀, if_neg (by decide), if_pos (by decide)]
  have hbelow : F.count (c_str command) params < -1 →
      createCommand F heap command params = .throws .bad_alloc := by
    intro h
    have hsize : PTRDIFF_MAX < sizeOfInt (intAdd (F.count (c_str command) params) 1) := by
      simp only [sizeOfInt, intAdd, INT_MAX, PTRDIFF_MAX] at hge ⊢
      omega
    simp only [createCommand, hsize, if_true]
  refine ⟨?_, hminus, hbelow⟩
  by_cases h : F.count (c_str command) params = -1
  · exact ⟨_, hminus h, by simp [BaseController.createCommandAndSend, hminus h]⟩
  · have h' : F.count (c_str command) params < -1 := by omega
    exact ⟨_, hbelow h', by simp [BaseController.createCommandAndSend, hbelow h']⟩

/-- C8, at an instance: the template `Speed %q`, for which the sizing pass reports -1, on the
controller `unconnected`: `createCommand` throws `std::length_error`, and so does
`createCommandAndSend`, which leaves the controller as it was. -/
theorem createCommand_negative_fails_witness :
    intFormatting.count (c_str (ascii "Speed %q")) [1] = -1
    ∧ createCommand intFormatting (fun _ => 0) (ascii "Speed %q") [1] = .throws .length_error
    ∧ unconnected.createCommandAndSend intFormatting (fun _ => 0) (ascii "Speed %q") [1]
        = (.throws .length_error, unconnected) := by
  obtain ⟨⟨e, h₁, h₂⟩, h₃, _⟩ := createCommand_negative_fails intFormatting (fun _ => 0)
    (ascii "Speed %q") [1] unconnected (by decide)
  have h₄ := h₃ (by decide)
  rw [h₄] at h₁
  cases h₁
  exact ⟨by decide, h₄, h₂⟩

/-! ## The claims on `setLog` and `getLog` -/

/-- C11, counterexample: after `setLog` with a handle to a Log that is not a `BasicLog`,
`getLog()` returns null, not the handle that was set; a `BasicLog` that was attached
before is detached. -/
theorem setLog_other_detaches :
    (unconnected.setLog (.other 7)).getLog = .null
    ∧ (unconnected.setLog (.other 7)).getLog ≠ .other 7
    ∧ unconnected.getLog = .basic ⟨[]⟩ := by
  decide

/-- C11, amended. For every Log handle that is null or refers to a `BasicLog`, and whatever log
was attached before, `getLog()` after `setLog(l)` returns `l`: the new log replaces
the previous one. -/
theorem setLog_getLog (c : BaseController) (l : LogHandle)
    (hl : ∀ id, l ≠ LogHandle.other id) :
    (c.setLog l).getLog = l ∧ ∀ previous, ((c.setLog previous).setLog l).getLog = l := by
  cases l with
  | null => exact ⟨rfl, fun _ => rfl⟩
  | basic b => exact ⟨rfl, fun _ => rfl⟩
  | other id => exact absurd rfl (hl id)

/-- C11, amended, at an instance: a `BasicLog` with one entry replaces the empty one. -/
theorem setLog_getLog_witness :
    (unconnected.setLog (.basic ⟨[(ascii "GetVersion\n", ascii "1.0")]⟩)).getLog
        = .basic ⟨[(ascii "GetVersion\n", ascii "1.0")]⟩
    ∧ ∀ previous,
        ((unconnected.setLog previous).setLog
            (.basic ⟨[(ascii "GetVersion\n", ascii "1.0")]⟩)).getLog
          = .basic ⟨[(ascii "GetVersion\n", ascii "1.0")]⟩ :=
  setLog_getLog unconnected (.basic ⟨[(ascii "GetVersion\n", ascii "1.0")]⟩)
    (fun _ h => LogHandle.noConfusion h)

/-- Whatever the handle, `setLog` replaces the log attached before, and a handle to a Log
that is not a `BasicLog` leaves the controller without a log. -/
theorem setLog_replaces (c : BaseController) (previous l : LogHandle) :
    ((c.setLog previous).setLog l).getLog = (c.setLog l).getLog
    ∧ ∀ id, (c.setLog (.other id)).getLog = .null :=
  ⟨rfl, fun _ => rfl⟩

/-! ## The claims on the scan, continued -/

/-- C14. For a delimiter `d` of two or more characters and a (good) stream `p ++ d ++ r` in which
`p` does not contain the first character of `d`, `getLine` with an empty line
returns exactly `p` and leaves exactly `r` unread, having consumed `p ++ d`; with a
line that is not empty, `p` is appended to it. -/
theorem getLine_naive_scan_exact (d p r : Str) (hlen : 2 ≤ d.length)
    (hp : ∀ d₀, d.head? = some d₀ → d₀ ∉ p) :
    getLine (IStream.ofStr (p ++ d ++ r)) [] d = .ok (IStream.ofStr r, p)
    ∧ ∀ line, getLine (IStream.ofStr (p ++ d ++ r)) line d
        = .ok (IStream.ofStr r, line ++ p) := by
  match d, hlen with
  | d₀ :: d₁ :: dt, _ =>
    have h₀ : d₀ ∉ p := hp d₀ rfl
    have key : ∀ line, getLine (IStream.ofStr (p ++ d₀ :: d₁ :: dt ++ r)) line (d₀ :: d₁ :: dt)
        = .ok (IStream.ofStr r, line ++ p) := by
      intro line
      simp only [getLine, IStream.ofStr]
      exact getLineLoop_exact d₀ (d₁ :: dt) r p line _ h₀ (by simp; omega)
    exact ⟨by simpa using key [], key⟩

/-- C14, at an instance: the delimiter `END` on the stream `xxENDyy`. -/
theorem getLine_naive_scan_exact_witness :
    getLine (IStream.ofStr (ascii "xx" ++ ascii "END" ++ ascii "yy")) [] (ascii "END")
        = .ok (IStream.ofStr (ascii "yy"), ascii "xx")
    ∧ ∀ line, getLine (IStream.ofStr (ascii "xx" ++ ascii "END" ++ ascii "yy")) line
          (ascii "END")
        = .ok (IStream.ofStr (ascii "yy"), line ++ ascii "xx") :=
  getLine_naive_scan_exact (ascii "END") (ascii "xx") (ascii "yy") (by decide) (by decide)

/-- C12, the failing inputs. At the end of the stream the loop takes the end-of-file value
for one more character. First, one iteration from the state with line `xy` and
candidate `EN` on the exhausted stream: the line becomes `xyEN` followed by the
character 255, which was never consumed; so the third read of the delimiter `END` on
`xyEN` returns that line. Second, the delimiter `E`, 255 on the stream `zzE`: the
end-of-file value completes the match and the read stops with the line `zz`, though
the characters consumed, `zzE`, are not `zz` followed by the delimiter. -/
theorem getLine_end_of_file_character :
    getLineLoop (ascii "END") 1 ⟨[], false, false⟩ (ascii "xy") (ascii "EN")
        = .ok (⟨[], true, true⟩, ascii "xyEN" ++ [255])
    ∧ getLine (IStream.ofStr (ascii "xyEN")) [] (ascii "END")
        = .ok (⟨[], true, true⟩, ascii "xyEN" ++ [255])
    ∧ getLine (IStream.ofStr (ascii "zzE")) [] [69, 255] = .ok (⟨[], true, true⟩, ascii "zz")
    ∧ ascii "zz" ++ [69, 255] ≠ ascii "zzE" := by
  decide

/-! ## The claims on `sendCommand` after a failed write -/

/-- What a failed write leaves behind. Take a controller with both request buffers empty
whose write of `cmd₁ ++ REQUEST_END` fails after `k` bytes, and any later state `c'` of
it with the two request buffers as the failed call left them. The failed call throws,
and the next call whose write the transport accepts writes the unsent rest of the
failed request, then the failed request once more, and only then `cmd₂` and
`REQUEST_END`; the request it records in the Log is the failed request followed by
`cmd₂` and `REQUEST_END`. -/
theorem sendCommand_after_failed_write (c c' : BaseController) (cmd₁ cmd₂ : Str)
    (ec : ErrorCode) (hin : c.deviceInput = []) (hout : c.ostreamBuffer = [])
    (hfail : (c.stream.write (cmd₁ ++ c.REQUEST_END)).ec = some ec)
    (hin' : c'.deviceInput = (c.sendCommand cmd₁).2.deviceInput)
    (hout' : c'.ostreamBuffer = (c.sendCommand cmd₁).2.ostreamBuffer)
    (hacc : c'.stream.accepts = true) :
    (c.sendCommand cmd₁).1 = .error (.system_error ec)
    ∧ (c'.sendCommand cmd₂).2.stream.written
        = c'.stream.written
          ++ (cmd₁ ++ c.REQUEST_END).drop (c.stream.write (cmd₁ ++ c.REQUEST_END)).transferred
          ++ (cmd₁ ++ c.REQUEST_END ++ cmd₂ ++ c'.REQUEST_END)
    ∧ ∀ l output, c'.log = some l → (c'.sendCommand cmd₂).1 = .ok output →
        (c'.sendCommand cmd₂).2.log
          = some ⟨l.entries ++ [(cmd₁ ++ c.REQUEST_END ++ cmd₂ ++ c'.REQUEST_END, output)]⟩ := by
  obtain ⟨_, hbuf, hfailed, _⟩ := sendCommand_effect c cmd₁
  simp only [hin, hout, List.nil_append] at hbuf hfailed
  obtain ⟨herr, hdev, _⟩ := hfailed ec hfail
  rw [hdev] at hin'
  rw [hbuf] at hout'
  obtain ⟨hwritten, _, _, hok⟩ := sendCommand_effect c' cmd₂
  have hw := write_of_accepts c'.stream
    (c'.ostreamBuffer ++ (c'.deviceInput ++ cmd₂ ++ c'.REQUEST_END)) hacc
  refine ⟨herr, ?_, fun l output hl ho => ?_⟩
  · rw [hwritten, hw, hin', hout']
    simp
  · rw [(hok (by rw [hw])).2.2 output ho, hl, hin']
    rfl

/-- C13, the failing inputs. First, the write of `SetMotor 1` breaks after three bytes; the
call fails and leaves the request in `deviceInput` and its unsent rest in the output
buffer. The next call, `sendCommand("GetVersion")`, completes, but it writes the rest
of the failed request and the failed request again before its own, and records the
failed request with its own in the Log. Second, the same with a call that failed
for want of a connection, followed by a `connect`. -/
theorem sendCommand_after_failure_resends :
    ((flaky.sendCommand (ascii "SetMotor 1")).1 = .error (.system_error .connection_reset)
      ∧ (flaky.sendCommand (ascii "SetMotor 1")).2.stream.written = ascii "Set"
      ∧ (flaky.sendCommand (ascii "SetMotor 1")).2.deviceInput = ascii "SetMotor 1\n"
      ∧ (flaky.sendCommand (ascii "SetMotor 1")).2.ostreamBuffer = ascii "Motor 1\n"
      ∧ ((flaky.sendCommand (ascii "SetMotor 1")).2.sendCommand (ascii "GetVersion")).1
          = .ok (ascii "1.0")
      ∧ ((flaky.sendCommand (ascii "SetMotor 1")).2.sendCommand
            (ascii "GetVersion")).2.stream.written
          = ascii "Set" ++ ascii "Motor 1\nSetMotor 1\nGetVersion\n"
      ∧ ((flaky.sendCommand (ascii "SetMotor 1")).2.sendCommand (ascii "GetVersion")).2.log
          = some ⟨[(ascii "SetMotor 1\nGetVersion\n", ascii "1.0")]⟩)
    ∧ ((unconnected.sendCommand (ascii "SetMotor 1")).1
          = .error (.system_error .bad_descriptor)
      ∧ connectedLater.stream.written = []
      ∧ (connectedLater.sendCommand (ascii "GetVersion")).1 = .ok (ascii "1.0")
      ∧ (connectedLater.sendCommand (ascii "GetVersion")).2.stream.written
          = ascii "SetMotor 1\nSetMotor 1\nGetVersion\n"
      ∧ (connectedLater.sendCommand (ascii "GetVersion")).2.log
          = some ⟨[(ascii "SetMotor 1\nGetVersion\n", ascii "1.0")]⟩) := by
  decide

/-- With a Log attached, `readResponse` false and `deviceInput` empty, a call whose write the
transport accepts returns the empty string and appends exactly the entry that pairs
the command followed by `REQUEST_END` with the empty response. -/
theorem sendCommand_fire_and_forget_logged (c : BaseController) (command : Str)
    (l : BasicLog) (hl : c.log = some l) (hread : c.readResponse = false)
    (hin : c.deviceInput = []) (hacc : c.stream.accepts = true) :
    (c.sendCommand command).1 = .ok []
    ∧ (c.sendCommand command).2.log
        = some ⟨l.entries ++ [(command ++ c.REQUEST_END, [])]⟩ := by
  obtain ⟨_, _, _, hok⟩ := sendCommand_effect c command
  have hw := write_of_accepts c.stream
    (c.ostreamBuffer ++ (c.deviceInput ++ command ++ c.REQUEST_END)) hacc
  have h₁ : (c.sendCommand command).1 = .ok [] := by
    simp only [List.append_assoc] at hw
    simp [BaseController.sendCommand, BaseController.sendCommandInternal, hread, hw]
  refine ⟨h₁, ?_⟩
  rw [(hok (by rw [hw])).2.2 [] h₁, hl, hin]
  rfl

/-- C15, the failing input: a Log is attached, `readResponse` is false, and an earlier call
`sendCommand("SetMotor 1")` failed for want of a connection. After `connect`, the
call `sendCommand("SetLDSRotation On")` has its write accepted and appends exactly one
entry with the empty response, but the request of that entry is the failed request
followed by the command and `REQUEST_END`, not the command and `REQUEST_END` alone. -/
theorem sendCommand_fire_and_forget_stale_request :
    fireAndForgetLater.log = some ⟨[]⟩
    ∧ fireAndForgetLater.readResponse = false
    ∧ fireAndForgetLater.stream.accepts = true
    ∧ (fireAndForgetLater.sendCommand (ascii "SetLDSRotation On")).1 = .ok []
    ∧ (fireAndForgetLater.sendCommand (ascii "SetLDSRotation On")).2.log
        = some ⟨[(ascii "SetMotor 1\nSetLDSRotation On\n", [])]⟩
    ∧ (fireAndForgetLater.sendCommand (ascii "SetLDSRotation On")).2.log
        ≠ some ⟨[(ascii "SetLDSRotation On" ++ fireAndForgetLater.REQUEST_END, [])]⟩ := by
  decide

end Regilo
